import Mathlib

/-!
Verification of the frame-conversion core of `microlens-utils`.

The Python sources embedded here are:
  * `src/microlens_utils/frames/bagle/vectors.py` (`convert_piEvec_tE`,
    `convert_u0vec_t0`, the constant `AU_PER_DAY_TO_KM_S`),
  * `src/microlens_utils/frames/bagle/helio_geo.py` (`convert_helio_geo_phot`,
    `_check_convert_inputs`),
  * `src/microlens_utils/frames/rotations.py` (`rotation_xy_to_tu`,
    `rotation_tu_to_xy`, `rotation_xy_to_ne`, `rotation_ne_to_xy`).

Modelling conventions:
  * Python floats are modelled by real numbers; the external astropy
    ephemeris oracle (`earth_projected_velocity`, `parallax_vector`) is an
    injected dependency in the source design, so its two projected values at
    the reference epoch `t0par` enter every definition as abstract parameters
    `vE vN` (km/s velocity components) and `parE parN` (AU position
    components).  Both calls of a round trip share `ra, dec, t0par`, hence
    the same oracle values.
  * Exceptions are modelled with `Except`: `ValueError`, `RuntimeError` and
    `numpy.linalg.LinAlgError` each get a constructor carrying the message.
  * The NaN/Inf behaviour of the validation layer is modelled separately on
    an extended value type `FV` (finite / nan / inf / -inf), with the exact
    `np.isnan` / `np.isfinite` / `math.cos` special-value semantics.
-/

namespace MicrolensUtils

/-- `np.hypot x y = Real.sqrt (x^2 + y^2)`. -/
noncomputable def hypot (x y : ℝ) : ℝ := Real.sqrt (x ^ 2 + y ^ 2)

/-- `np.sign`: 1 for positive, -1 for negative, 0 for zero. -/
noncomputable def sign (x : ℝ) : ℝ := if 0 < x then 1 else if x < 0 then -1 else 0

/-- `AU_PER_DAY_TO_KM_S = 1731.45683` (vectors.py line 12), as an exact rational. -/
noncomputable def AU_PER_DAY_TO_KM_S : ℝ := 173145683 / 100000

/-- The `in_frame` argument, restricted to its two documented values. -/
inductive Frame
| helio
| geo
deriving DecidableEq

/-- The `murel_in` / `murel_out` conventions. -/
inductive MuRel
| SL
| LS
deriving DecidableEq

/-- The `coord_in` / `coord_out` conventions. -/
inductive Coord
| EN
| tb
deriving DecidableEq

/-- Python exception kinds raised by the embedded functions, with message. -/
inductive ConvError
| valueError (msg : String)
| runtimeError (msg : String)
| linAlgError (msg : String)
deriving DecidableEq

/-! ### Basic lemmas about `hypot` and `sign` -/

theorem hypot_nonneg (x y : ℝ) : 0 ≤ hypot x y := Real.sqrt_nonneg _

theorem hypot_eq_zero_iff (x y : ℝ) : hypot x y = 0 ↔ x = 0 ∧ y = 0 := by
  unfold hypot
  constructor
  · intro h
    have h' : x ^ 2 + y ^ 2 ≤ 0 := Real.sqrt_eq_zero'.mp h
    constructor <;> nlinarith [sq_nonneg x, sq_nonneg y]
  · rintro ⟨rfl, rfl⟩
    simp

theorem hypot_pos (x y : ℝ) (h : ¬(x = 0 ∧ y = 0)) : 0 < hypot x y := by
  rcases lt_or_eq_of_le (hypot_nonneg x y) with h' | h'
  · exact h'
  · exact absurd ((hypot_eq_zero_iff x y).mp h'.symm) h

theorem hypot_sq (x y : ℝ) : hypot x y ^ 2 = x ^ 2 + y ^ 2 :=
  Real.sq_sqrt (by positivity)

theorem hypot_mul (c x y : ℝ) (hc : 0 ≤ c) : hypot (c * x) (c * y) = c * hypot x y := by
  unfold hypot
  rw [show (c * x) ^ 2 + (c * y) ^ 2 = c ^ 2 * (x ^ 2 + y ^ 2) by ring,
    Real.sqrt_mul (sq_nonneg c), Real.sqrt_sq hc]

theorem hypot_abs_mul (c x y : ℝ) : hypot (c * x) (c * y) = |c| * hypot x y := by
  unfold hypot
  rw [show (c * x) ^ 2 + (c * y) ^ 2 = c ^ 2 * (x ^ 2 + y ^ 2) by ring,
    Real.sqrt_mul (sq_nonneg c), Real.sqrt_sq_eq_abs]

theorem hypot_neg_neg (x y : ℝ) : hypot (-x) (-y) = hypot x y := by
  unfold hypot
  ring_nf

theorem hypot_x_zero (x : ℝ) : hypot x 0 = |x| := by
  unfold hypot
  rw [show x ^ 2 + 0 ^ 2 = x ^ 2 by ring, Real.sqrt_sq_eq_abs]

theorem hypot_zero_y (y : ℝ) : hypot 0 y = |y| := by
  unfold hypot
  rw [show 0 ^ 2 + y ^ 2 = y ^ 2 by ring, Real.sqrt_sq_eq_abs]

theorem sign_of_pos {x : ℝ} (h : 0 < x) : sign x = 1 := by
  unfold sign
  rw [if_pos h]

theorem sign_of_neg {x : ℝ} (h : x < 0) : sign x = -1 := by
  unfold sign
  rw [if_neg (by linarith), if_pos h]

theorem sign_zero : sign 0 = 0 := by
  unfold sign
  norm_num

/-! ### `convert_piEvec_tE` (vectors.py lines 92-149)

The intermediate tilde-velocity components get their own definitions so the
theorems can talk about them; they mirror vectors.py lines 128-140 verbatim
(`piE2 = piE**2`, `vtildeN_in = piEN_in / (tE_in * piE2)`, then
`vtildeN_in *= AU_PER_DAY_TO_KM_S`, then the frame flip with `v_Earth`). -/

/-- East component of the input-frame tilde velocity (vectors.py 130-132). -/
noncomputable def vtildeE_in (piEE_in piEN_in tE_in : ℝ) : ℝ :=
  piEE_in / (tE_in * hypot piEE_in piEN_in ^ 2) * AU_PER_DAY_TO_KM_S

/-- North component of the input-frame tilde velocity (vectors.py 129-131). -/
noncomputable def vtildeN_in (piEE_in piEN_in tE_in : ℝ) : ℝ :=
  piEN_in / (tE_in * hypot piEE_in piEN_in ^ 2) * AU_PER_DAY_TO_KM_S

/-- East component after the frame flip (vectors.py 135-140). -/
noncomputable def vtildeE_out (vE piEE_in piEN_in tE_in : ℝ) (in_frame : Frame) : ℝ :=
  match in_frame with
  | .helio => -vtildeE_in piEE_in piEN_in tE_in - vE
  | .geo => -vtildeE_in piEE_in piEN_in tE_in + vE

/-- North component after the frame flip (vectors.py 135-140). -/
noncomputable def vtildeN_out (vN piEE_in piEN_in tE_in : ℝ) (in_frame : Frame) : ℝ :=
  match in_frame with
  | .helio => -vtildeN_in piEE_in piEN_in tE_in - vN
  | .geo => -vtildeN_in piEE_in piEN_in tE_in + vN

/-- `convert_piEvec_tE` (vectors.py lines 92-149).  `vE vN` stand for
`earth_projected_velocity(ra, dec, t0par)`.  The `in_frame` string check is
subsumed by the `Frame` type; the zero-length check and the returned tuple
`(piEE_out, piEN_out, tE_out)` follow the source line by line. -/
noncomputable def convert_piEvec_tE (vE vN piEE_in piEN_in tE_in : ℝ) (in_frame : Frame) :
    Except ConvError (ℝ × ℝ × ℝ) :=
  if hypot piEE_in piEN_in = 0 then
    .error (.valueError "piE vector cannot be zero-length.")
  else
    let piE := hypot piEE_in piEN_in
    let vtE_out := vtildeE_out vE piEE_in piEN_in tE_in in_frame
    let vtN_out := vtildeN_out vN piEE_in piEN_in tE_in in_frame
    let vtilde_in := hypot (vtildeE_in piEE_in piEN_in tE_in) (vtildeN_in piEE_in piEN_in tE_in)
    let vtilde_out := hypot vtE_out vtN_out
    .ok (piE * (-vtE_out / vtilde_out), piE * (-vtN_out / vtilde_out),
      vtilde_in / vtilde_out * tE_in)

/-! ### Claim C3: the tilde-velocity formula -/

/-- Modelled from the spec (4.3 step 2): `vtilde = piE_hat / (tE * piE^2) *
AU_PER_DAY_TO_KM_S` per axis — East axis.  This definition follows the spec
wording, for comparison with the source definition `vtildeE_in`. -/
noncomputable def vtildeE_claimC3 (piEE_in piEN_in tE_in : ℝ) : ℝ :=
  piEE_in / hypot piEE_in piEN_in / (tE_in * hypot piEE_in piEN_in ^ 2) *
    AU_PER_DAY_TO_KM_S

/-- Modelled from the spec (4.3 step 2) — North axis. -/
noncomputable def vtildeN_claimC3 (piEE_in piEN_in tE_in : ℝ) : ℝ :=
  piEN_in / hypot piEE_in piEN_in / (tE_in * hypot piEE_in piEN_in ^ 2) *
    AU_PER_DAY_TO_KM_S

theorem hypot_three_four : hypot 3 4 = 5 := by
  unfold hypot
  rw [show (3 : ℝ) ^ 2 + (4 : ℝ) ^ 2 = 5 ^ 2 by norm_num, Real.sqrt_sq (by norm_num)]

/-- Claim C3, counterexample: at `piEE_in = 3`, `piEN_in = 4`, `tE_in = 1`
(so `piE = 5`), the spec formula gives `(3/5)/25 * 1731.45683` while the code
computes `3/25 * 1731.45683`: the spec value is strictly smaller, so the
claimed equality fails at this input. -/
theorem C3_counterexample : vtildeE_claimC3 3 4 1 < vtildeE_in 3 4 1 := by
  unfold vtildeE_claimC3 vtildeE_in AU_PER_DAY_TO_KM_S
  rw [hypot_three_four]
  norm_num

/-- Claim C3, amended: the intermediate tilde velocity equals, per axis, the
unit direction `piE_hat` divided by `(tE_in * piE)` — first power, not
squared — times `AU_PER_DAY_TO_KM_S`; equivalently `piE_axis / (tE_in *
piE^2) * AU_PER_DAY_TO_KM_S`, which is what vectors.py lines 128-132
compute. -/
theorem C3_vtilde_formula (piEE_in piEN_in tE_in : ℝ)
    (_hpiE : hypot piEE_in piEN_in ≠ 0) :
    vtildeE_in piEE_in piEN_in tE_in =
      piEE_in / hypot piEE_in piEN_in / (tE_in * hypot piEE_in piEN_in) *
        AU_PER_DAY_TO_KM_S ∧
    vtildeN_in piEE_in piEN_in tE_in =
      piEN_in / hypot piEE_in piEN_in / (tE_in * hypot piEE_in piEN_in) *
        AU_PER_DAY_TO_KM_S := by
  unfold vtildeE_in vtildeN_in
  constructor <;> · field_simp; ring

/-- Witness for `C3_vtilde_formula` at `(piEE, piEN, tE) = (3, 4, 1)`. -/
theorem C3_vtilde_formula_witness :
    vtildeE_in 3 4 1 = 3 / hypot 3 4 / (1 * hypot 3 4) * AU_PER_DAY_TO_KM_S ∧
    vtildeN_in 3 4 1 = 4 / hypot 3 4 / (1 * hypot 3 4) * AU_PER_DAY_TO_KM_S :=
  C3_vtilde_formula 3 4 1 (by rw [hypot_three_four]; norm_num)

/-! ### Claim C8: the zero-parallax domain error -/

/-- Claim C8: `convert_piEvec_tE` raises its domain `ValueError` exactly when
the input parallax vector has zero magnitude, for either `in_frame`; when the
magnitude is nonzero it returns a value and raises nothing.  (The error
branch is taken before the Earth-velocity values `vE vN` are consumed,
mirroring the source order: the raise at vectors.py line 127 precedes the
ephemeris call at line 134.) -/
theorem C8_zero_piE_domain_error (vE vN piEE_in piEN_in tE_in : ℝ) (in_frame : Frame) :
    (hypot piEE_in piEN_in = 0 →
      convert_piEvec_tE vE vN piEE_in piEN_in tE_in in_frame =
        .error (.valueError "piE vector cannot be zero-length.")) ∧
    (hypot piEE_in piEN_in ≠ 0 →
      ∃ out, convert_piEvec_tE vE vN piEE_in piEN_in tE_in in_frame = .ok out) := by
  unfold convert_piEvec_tE
  constructor
  · intro h
    rw [if_pos h]
  · intro h
    rw [if_neg h]
    exact ⟨_, rfl⟩

/-! ### Round trip of `convert_piEvec_tE` -/

theorem AU_pos : 0 < AU_PER_DAY_TO_KM_S := by
  unfold AU_PER_DAY_TO_KM_S
  norm_num

/-- Closed form of the helio→geo call of `convert_piEvec_tE`. -/
theorem convert_piEvec_tE_helio_eq (vE vN pE pN tE : ℝ) (h : hypot pE pN ≠ 0) :
    convert_piEvec_tE vE vN pE pN tE .helio =
      .ok (hypot pE pN * ((vtildeE_in pE pN tE + vE) /
              hypot (vtildeE_in pE pN tE + vE) (vtildeN_in pE pN tE + vN)),
           hypot pE pN * ((vtildeN_in pE pN tE + vN) /
              hypot (vtildeE_in pE pN tE + vE) (vtildeN_in pE pN tE + vN)),
           hypot (vtildeE_in pE pN tE) (vtildeN_in pE pN tE) /
              hypot (vtildeE_in pE pN tE + vE) (vtildeN_in pE pN tE + vN) * tE) := by
  simp only [convert_piEvec_tE, vtildeE_out, vtildeN_out, if_neg h]
  rw [show -vtildeE_in pE pN tE - vE = -(vtildeE_in pE pN tE + vE) by ring,
    show -vtildeN_in pE pN tE - vN = -(vtildeN_in pE pN tE + vN) by ring,
    hypot_neg_neg, neg_neg, neg_neg]

/-- The magnitude of the input-frame tilde velocity. -/
theorem hypot_vtilde_in (pE pN tE : ℝ) (hpiE : hypot pE pN ≠ 0) (htE : 0 < tE) :
    hypot (vtildeE_in pE pN tE) (vtildeN_in pE pN tE) =
      AU_PER_DAY_TO_KM_S / (tE * hypot pE pN) := by
  have hP : 0 < hypot pE pN := lt_of_le_of_ne (hypot_nonneg pE pN) (Ne.symm hpiE)
  have hc : 0 ≤ AU_PER_DAY_TO_KM_S / (tE * hypot pE pN ^ 2) :=
    div_nonneg AU_pos.le (by positivity)
  rw [show vtildeE_in pE pN tE =
        AU_PER_DAY_TO_KM_S / (tE * hypot pE pN ^ 2) * pE by unfold vtildeE_in; ring,
    show vtildeN_in pE pN tE =
        AU_PER_DAY_TO_KM_S / (tE * hypot pE pN ^ 2) * pN by unfold vtildeN_in; ring,
    hypot_mul _ _ _ hc]
  field_simp
  ring

/-- Applying `convert_piEvec_tE` geo→helio to the exact outputs of the
helio→geo call (same Earth velocity, i.e. same `t0par`) recovers the input
triple exactly, provided `piE ≠ 0`, `tE > 0` and the geocentric tilde
velocity is nonzero. -/
theorem convert_piEvec_tE_geo_inverse (vE vN pE pN tE : ℝ)
    (hpiE : hypot pE pN ≠ 0) (htE : 0 < tE)
    (hout : ¬(vtildeE_in pE pN tE + vE = 0 ∧ vtildeN_in pE pN tE + vN = 0)) :
    convert_piEvec_tE vE vN
      (hypot pE pN * ((vtildeE_in pE pN tE + vE) /
          hypot (vtildeE_in pE pN tE + vE) (vtildeN_in pE pN tE + vN)))
      (hypot pE pN * ((vtildeN_in pE pN tE + vN) /
          hypot (vtildeE_in pE pN tE + vE) (vtildeN_in pE pN tE + vN)))
      (hypot (vtildeE_in pE pN tE) (vtildeN_in pE pN tE) /
          hypot (vtildeE_in pE pN tE + vE) (vtildeN_in pE pN tE + vN) * tE) .geo =
      .ok (pE, pN, tE) := by
  have hP : 0 < hypot pE pN := lt_of_le_of_ne (hypot_nonneg pE pN) (Ne.symm hpiE)
  have htE' : tE ≠ 0 := ne_of_gt htE
  have hK : AU_PER_DAY_TO_KM_S ≠ 0 := ne_of_gt AU_pos
  set P := hypot pE pN with hPdef
  set wE := vtildeE_in pE pN tE with hwEdef
  set wN := vtildeN_in pE pN tE with hwNdef
  set r := hypot (wE + vE) (wN + vN) with hrdef
  have hr : 0 < r := hypot_pos _ _ hout
  have hr' : r ≠ 0 := ne_of_gt hr
  have hw : hypot wE wN = AU_PER_DAY_TO_KM_S / (tE * P) := hypot_vtilde_in pE pN tE hpiE htE
  -- the parallax magnitude of the geo-frame inputs is again `P`
  have haE : P * ((wE + vE) / r) = P / r * (wE + vE) := by ring
  have haN : P * ((wN + vN) / r) = P / r * (wN + vN) := by ring
  have hPr : 0 ≤ P / r := by positivity
  have hmag : hypot (P * ((wE + vE) / r)) (P * ((wN + vN) / r)) = P := by
    rw [haE, haN, hypot_mul _ _ _ hPr, ← hrdef]
    field_simp
  have hmag' : hypot (P * ((wE + vE) / r)) (P * ((wN + vN) / r)) ≠ 0 := by
    rw [hmag]; exact hpiE
  -- the geo-frame tilde velocity is `(wE + vE, wN + vN)`
  have hwE2 : vtildeE_in (P * ((wE + vE) / r)) (P * ((wN + vN) / r))
      (hypot wE wN / r * tE) = wE + vE := by
    unfold vtildeE_in
    rw [hmag, hw]
    have hwE' : wE = AU_PER_DAY_TO_KM_S / (tE * P ^ 2) * pE := by
      rw [hwEdef]; unfold vtildeE_in; rw [← hPdef]; ring
    field_simp
    ring
  have hwN2 : vtildeN_in (P * ((wE + vE) / r)) (P * ((wN + vN) / r))
      (hypot wE wN / r * tE) = wN + vN := by
    unfold vtildeN_in
    rw [hmag, hw]
    field_simp
    ring
  -- unfold the geo call
  simp only [convert_piEvec_tE, vtildeE_out, vtildeN_out, if_neg hmag', hwE2, hwN2, hmag]
  rw [show -(wE + vE) + vE = -wE by ring, show -(wN + vN) + vN = -wN by ring,
    hypot_neg_neg, hw]
  rw [if_neg hpiE]
  simp only [Except.ok.injEq, Prod.mk.injEq]
  have hwE' : wE = AU_PER_DAY_TO_KM_S / (tE * P ^ 2) * pE := by
    rw [hwEdef]; unfold vtildeE_in; rw [← hPdef]; ring
  have hwN' : wN = AU_PER_DAY_TO_KM_S / (tE * P ^ 2) * pN := by
    rw [hwNdef]; unfold vtildeN_in; rw [← hPdef]; ring
  refine ⟨?_, ?_, ?_⟩
  · rw [hwE']
    field_simp
    ring
  · rw [hwN']
    field_simp
    ring
  · rw [← hrdef]
    have hP' : P ≠ 0 := ne_of_gt hP
    field_simp
    ring

theorem hypot_one_zero : hypot 1 0 = 1 := by
  rw [hypot_x_zero]
  norm_num

/-- Claim C2: for every Earth velocity (determined by the fixed `ra, dec,
t0par`) and every `(piEE, piEN, tE)` with `hypot piEE piEN ≠ 0` — and with
the round trip well defined, i.e. positive input timescale and nonzero
geocentric tilde velocity — applying `convert_piEvec_tE` with
`in_frame = "helio"` and then applying it to the result with
`in_frame = "geo"` and the same `t0par` recovers `(piEE, piEN, tE)` exactly
(in real arithmetic), hence in particular within the claimed 1e-8 / 1e-9
tolerances. -/
theorem C2_piEvec_roundtrip (vE vN piEE piEN tE : ℝ)
    (hpiE : hypot piEE piEN ≠ 0) (htE : 0 < tE)
    (hout : ¬(vtildeE_out vE piEE piEN tE .helio = 0 ∧
              vtildeN_out vN piEE piEN tE .helio = 0)) :
    ∃ piEE1 piEN1 tE1,
      convert_piEvec_tE vE vN piEE piEN tE .helio = .ok (piEE1, piEN1, tE1) ∧
      convert_piEvec_tE vE vN piEE1 piEN1 tE1 .geo = .ok (piEE, piEN, tE) := by
  have hout' : ¬(vtildeE_in piEE piEN tE + vE = 0 ∧ vtildeN_in piEE piEN tE + vN = 0) := by
    simp only [vtildeE_out, vtildeN_out] at hout
    intro h
    exact hout ⟨by linarith [h.1], by linarith [h.2]⟩
  exact ⟨_, _, _, convert_piEvec_tE_helio_eq vE vN piEE piEN tE hpiE,
    convert_piEvec_tE_geo_inverse vE vN piEE piEN tE hpiE htE hout'⟩

/-- Witness for `C2_piEvec_roundtrip`: Earth velocity `(30, 0)` km/s,
`(piEE, piEN, tE) = (1, 0, 1)`. -/
theorem C2_piEvec_roundtrip_witness :
    ∃ piEE1 piEN1 tE1,
      convert_piEvec_tE 30 0 1 0 1 .helio = .ok (piEE1, piEN1, tE1) ∧
      convert_piEvec_tE 30 0 piEE1 piEN1 tE1 .geo = .ok (1, 0, 1) :=
  C2_piEvec_roundtrip 30 0 1 0 1 (by rw [hypot_one_zero]; norm_num) (by norm_num)
    (by
      intro h
      have h1 := h.1
      simp only [vtildeE_out, vtildeE_in, hypot_one_zero] at h1
      unfold AU_PER_DAY_TO_KM_S at h1
      norm_num at h1)

/-- Claim C9: whenever the input parallax vector is nonzero and the output
tilde velocity is nonzero (so the conversion is defined), the returned
parallax vector has exactly the input magnitude: the output is `piE` times
the unit vector `-vtilde_out / |vtilde_out|`. -/
theorem C9_piE_magnitude_invariant (vE vN piEE piEN tE : ℝ) (frame : Frame)
    (hpiE : hypot piEE piEN ≠ 0)
    (hout : ¬(vtildeE_out vE piEE piEN tE frame = 0 ∧
              vtildeN_out vN piEE piEN tE frame = 0)) :
    ∃ piEE1 piEN1 tE1,
      convert_piEvec_tE vE vN piEE piEN tE frame = .ok (piEE1, piEN1, tE1) ∧
      hypot piEE1 piEN1 = hypot piEE piEN := by
  have hρ : 0 < hypot (vtildeE_out vE piEE piEN tE frame) (vtildeN_out vN piEE piEN tE frame) :=
    hypot_pos _ _ hout
  have hρ' : hypot (vtildeE_out vE piEE piEN tE frame) (vtildeN_out vN piEE piEN tE frame) ≠ 0 :=
    ne_of_gt hρ
  unfold convert_piEvec_tE
  rw [if_neg hpiE]
  refine ⟨_, _, _, rfl, ?_⟩
  rw [show hypot piEE piEN * (-vtildeE_out vE piEE piEN tE frame /
        hypot (vtildeE_out vE piEE piEN tE frame) (vtildeN_out vN piEE piEN tE frame)) =
      hypot piEE piEN / hypot (vtildeE_out vE piEE piEN tE frame)
          (vtildeN_out vN piEE piEN tE frame) * -vtildeE_out vE piEE piEN tE frame by ring,
    show hypot piEE piEN * (-vtildeN_out vN piEE piEN tE frame /
        hypot (vtildeE_out vE piEE piEN tE frame) (vtildeN_out vN piEE piEN tE frame)) =
      hypot piEE piEN / hypot (vtildeE_out vE piEE piEN tE frame)
          (vtildeN_out vN piEE piEN tE frame) * -vtildeN_out vN piEE piEN tE frame by ring,
    hypot_mul _ _ _ (div_nonneg (hypot_nonneg _ _) (hypot_nonneg _ _)), hypot_neg_neg]
  field_simp

/-- Witness for `C9_piE_magnitude_invariant` at Earth velocity `(30, 0)`,
`(piEE, piEN, tE) = (1, 0, 1)`, `in_frame = "helio"`. -/
theorem C9_piE_magnitude_invariant_witness :
    ∃ piEE1 piEN1 tE1,
      convert_piEvec_tE 30 0 1 0 1 .helio = .ok (piEE1, piEN1, tE1) ∧
      hypot piEE1 piEN1 = hypot 1 0 :=
  C9_piE_magnitude_invariant 30 0 1 0 1 .helio (by rw [hypot_one_zero]; norm_num)
    (by
      intro h
      have h1 := h.1
      simp only [vtildeE_out, vtildeE_in, hypot_one_zero] at h1
      unfold AU_PER_DAY_TO_KM_S at h1
      norm_num at h1)

/-! ### `convert_u0vec_t0` and `convert_helio_geo_phot`
(vectors.py lines 152-226, helio_geo.py lines 40-175)

`parE parN` stand for `parallax_vector(ra, dec, [t0par])`, the second oracle
value fixed by `(ra, dec, t0par)`.  The sign-convention branches of
helio_geo.py lines 120-141 and 161-169 are split into named definitions so
the claims can refer to them; each mirrors its line range verbatim. -/

/-- `coord_in == "EN"` branch choosing `u0hat_in` (helio_geo.py 120-134). -/
noncomputable def u0hat_EN (u0_in piEE_in piEN_in tauhatE_in tauhatN_in : ℝ) : ℝ × ℝ :=
  if sign (u0_in * piEN_in) < 0 then (-tauhatN_in, tauhatE_in)
  else if 0 < sign (u0_in * piEN_in) then (tauhatN_in, -tauhatE_in)
  else if 0 < sign (u0_in * piEE_in) then (-tauhatN_in, tauhatE_in)
  else (tauhatN_in, -tauhatE_in)

/-- `coord_in == "tb"` branch choosing `u0hat_in` (helio_geo.py 135-141). -/
noncomputable def u0hat_tb (u0_in tauhatE_in tauhatN_in : ℝ) : ℝ × ℝ :=
  if 0 < sign u0_in then (tauhatN_in, -tauhatE_in)
  else (-tauhatN_in, tauhatE_in)

/-- Signed `u0_out` for `coord_out == "EN"` (helio_geo.py 161-163): the norm
of the output vector, negated when its East component is negative. -/
noncomputable def u0_signed_EN (u0vec : ℝ × ℝ) : ℝ :=
  if u0vec.1 < 0 then -hypot u0vec.1 u0vec.2 else hypot u0vec.1 u0vec.2

/-- Signed `u0_out` for `coord_out == "tb"` (helio_geo.py 165-169): the norm
of the output vector, negated when the cross product of `tauhat_out` with it
is negative. -/
noncomputable def u0_signed_tb (tauhatE_out tauhatN_out : ℝ) (u0vec : ℝ × ℝ) : ℝ :=
  if sign (tauhatE_out * u0vec.2 - tauhatN_out * u0vec.1) < 0 then
    -hypot u0vec.1 u0vec.2
  else hypot u0vec.1 u0vec.2

/-- `convert_u0vec_t0` (vectors.py lines 152-226), componentwise. -/
noncomputable def convert_u0vec_t0 (parE parN t0par t0_in u0_in tE_in tE_out piE
    tauhatE_in tauhatN_in u0hatE_in u0hatN_in tauhatE_out tauhatN_out : ℝ)
    (in_frame : Frame) : ℝ × (ℝ × ℝ) :=
  let u0vecE_in := |u0_in| * u0hatE_in
  let u0vecN_in := |u0_in| * u0hatN_in
  match in_frame with
  | .helio =>
    let dp_dtE := (tauhatE_in / tE_in - tauhatE_out / tE_out) / piE
    let dp_dtN := (tauhatN_in / tE_in - tauhatN_out / tE_out) / piE
    let vecE := u0vecE_in - piE * parE - (t0_in - t0par) * piE * dp_dtE
    let vecN := u0vecN_in - piE * parN - (t0_in - t0par) * piE * dp_dtN
    let t0_out := t0_in - tE_out * (tauhatE_out * vecE + tauhatN_out * vecN)
    (t0_out,
      (u0vecE_in + tauhatE_in * (t0par - t0_in) / tE_in -
         tauhatE_out * (t0par - t0_out) / tE_out - piE * parE,
       u0vecN_in + tauhatN_in * (t0par - t0_in) / tE_in -
         tauhatN_out * (t0par - t0_out) / tE_out - piE * parN))
  | .geo =>
    let dp_dtE := -(tauhatE_in / tE_in - tauhatE_out / tE_out) / piE
    let dp_dtN := -(tauhatN_in / tE_in - tauhatN_out / tE_out) / piE
    let vecE := u0vecE_in + piE * parE + (t0_in - t0par) * piE * dp_dtE
    let vecN := u0vecN_in + piE * parN + (t0_in - t0par) * piE * dp_dtN
    let t0_out := t0_in - tE_out * (tauhatE_out * vecE + tauhatN_out * vecN)
    (t0_out,
      (u0vecE_in + tauhatE_in * (t0par - t0_in) / tE_in -
         tauhatE_out * (t0par - t0_out) / tE_out + piE * parE,
       u0vecN_in + tauhatN_in * (t0par - t0_in) / tE_in -
         tauhatN_out * (t0par - t0_out) / tE_out + piE * parN))

/-- `convert_helio_geo_phot` (helio_geo.py lines 40-175).  The
`_check_convert_inputs` call only validates the enum strings (subsumed by the
`Frame`/`MuRel`/`Coord` types) and `np.isnan` of the five main numeric inputs
— a no-op over the reals; its NaN behaviour is modelled on `FV` below for the
validation claims.  Everything else mirrors the source line by line. -/
noncomputable def convert_helio_geo_phot (vE vN parE parN t0_in u0_in tE_in
    piEE_in0 piEN_in0 t0par : ℝ) (in_frame : Frame) (murel_in murel_out : MuRel)
    (coord_in coord_out : Coord) : Except ConvError (ℝ × ℝ × ℝ × ℝ × ℝ) :=
  let piEE_in := if murel_in = .LS then -piEE_in0 else piEE_in0
  let piEN_in := if murel_in = .LS then -piEN_in0 else piEN_in0
  (convert_piEvec_tE vE vN piEE_in piEN_in tE_in in_frame).bind fun out =>
    let piEE_out := out.1
    let piEN_out := out.2.1
    let tE_out := out.2.2
    let piE := hypot piEE_in piEN_in
    let tauhatE_in := piEE_in / piE
    let tauhatN_in := piEN_in / piE
    let tauhatE_out := piEE_out / piE
    let tauhatN_out := piEN_out / piE
    let u0hat := match coord_in with
      | .EN => u0hat_EN u0_in piEE_in piEN_in tauhatE_in tauhatN_in
      | .tb => u0hat_tb u0_in tauhatE_in tauhatN_in
    let res := convert_u0vec_t0 parE parN t0par t0_in u0_in tE_in tE_out piE
      tauhatE_in tauhatN_in u0hat.1 u0hat.2 tauhatE_out tauhatN_out in_frame
    let u0_out := match coord_out with
      | .EN => u0_signed_EN res.2
      | .tb => u0_signed_tb tauhatE_out tauhatN_out res.2
    let piEE_ret := if murel_out = .LS then -piEE_out else piEE_out
    let piEN_ret := if murel_out = .LS then -piEN_out else piEN_out
    .ok (res.1, u0_out, tE_out, piEE_ret, piEN_ret)

/-! ### Claim C5: the EN sign rule and its tie-break -/

/-- Rotation of an (East, North) 2-vector by +90 degrees (`σ = 1`,
East toward North) or -90 degrees (`σ = -1`). -/
noncomputable def rot90 (σ : ℝ) (v : ℝ × ℝ) : ℝ × ℝ := (-σ * v.2, σ * v.1)

/-- Claim C5: with `coord_in = "EN"` the input impact-parameter unit vector
is a +90 or -90 degree perpendicular rotation of `tauhat_in`, selected solely
by the sign of `u0_in * piEN_in`; when that product is exactly zero, the
selection falls back to the sign of `u0_in * piEE_in` (positive sign of the
fallback product picks the +90 rotation, otherwise −90), exactly as
helio_geo.py lines 120-134 write it. -/
theorem C5_EN_tie_break (u0_in piEE_in piEN_in tauhatE_in tauhatN_in : ℝ) :
    ∃ σ, (σ = 1 ∨ σ = -1) ∧
      u0hat_EN u0_in piEE_in piEN_in tauhatE_in tauhatN_in =
        rot90 σ (tauhatE_in, tauhatN_in) ∧
      σ = (if sign (u0_in * piEN_in) < 0 then 1
           else if 0 < sign (u0_in * piEN_in) then -1
           else if 0 < sign (u0_in * piEE_in) then 1 else -1) := by
  unfold u0hat_EN rot90
  split_ifs with h1 h2 h3
  · exact ⟨1, Or.inl rfl, by norm_num, rfl⟩
  · exact ⟨-1, Or.inr rfl, by norm_num, rfl⟩
  · exact ⟨1, Or.inl rfl, by norm_num, rfl⟩
  · exact ⟨-1, Or.inr rfl, by norm_num, rfl⟩

/-! ### Consistency of the EN sign conventions (towards claim C1) -/

theorem except_bind_ok {ε α β : Type} (a : α) (f : α → Except ε β) :
    Except.bind (Except.ok a) f = f a := rfl

theorem hypot_eq_one (x y : ℝ) (h : x ^ 2 + y ^ 2 = 1) : hypot x y = 1 := by
  unfold hypot
  rw [h]
  exact Real.sqrt_one

/-- The vector chosen by `u0hat_EN` is always perpendicular to `tauhat_in`. -/
theorem u0hat_EN_perp (u0 pE pN a b : ℝ) :
    a * (u0hat_EN u0 pE pN a b).1 + b * (u0hat_EN u0 pE pN a b).2 = 0 := by
  unfold u0hat_EN
  split_ifs <;> simp <;> ring

/-- Decoding a signed `u0` into a vector with `u0hat_EN` and reading it back
with `u0_signed_EN` returns `u0`, whenever `tauhat_in = (a, b)` is a unit
vector with `b ≠ 0` (the internal SL parallax being `(piE*a, piE*b)` with
`piE > 0`). -/
theorem EN_decode_encode_outer (a b piE u0 : ℝ) (hunit : a ^ 2 + b ^ 2 = 1)
    (hpiE : 0 < piE) (hb : b ≠ 0) :
    u0_signed_EN (|u0| * (u0hat_EN u0 (piE * a) (piE * b) a b).1,
                  |u0| * (u0hat_EN u0 (piE * a) (piE * b) a b).2) = u0 := by
  have hba : hypot b (-a) = 1 := hypot_eq_one b (-a) (by linear_combination hunit)
  have hnba : hypot (-b) a = 1 := hypot_eq_one (-b) a (by linear_combination hunit)
  rcases lt_trichotomy u0 0 with hu | hu | hu
  · have habs : |u0| = -u0 := abs_of_neg hu
    have habs_pos : 0 < |u0| := abs_pos.mpr (ne_of_lt hu)
    rcases hb.lt_or_lt with hbneg | hbpos
    · -- u0 < 0, b < 0 : sign(u0 * piE * b) = 1, branch (b, -a), East comp < 0
      have hs : sign (u0 * (piE * b)) = 1 :=
        sign_of_pos (by nlinarith [mul_pos (mul_pos (neg_pos.2 hu) hpiE) (neg_pos.2 hbneg)])
      unfold u0hat_EN
      rw [hs, if_neg (by norm_num), if_pos (by norm_num)]
      unfold u0_signed_EN
      simp only
      rw [if_pos (mul_neg_of_pos_of_neg habs_pos hbneg), hypot_abs_mul, abs_abs, hba,
        mul_one, habs]
      ring
    · -- u0 < 0, b > 0 : sign(u0 * piE * b) = -1, branch (-b, a), East comp < 0
      have hs : sign (u0 * (piE * b)) = -1 :=
        sign_of_neg (by nlinarith [mul_pos (mul_pos (neg_pos.2 hu) hpiE) hbpos])
      unfold u0hat_EN
      rw [hs, if_pos (by norm_num)]
      unfold u0_signed_EN
      simp only
      rw [if_pos (by nlinarith [mul_pos habs_pos hbpos]), hypot_abs_mul, abs_abs, hnba,
        mul_one, habs]
      ring
  · subst hu
    unfold u0hat_EN
    rw [zero_mul, zero_mul, sign_zero]
    rw [if_neg (by norm_num), if_neg (by norm_num), if_neg (by norm_num)]
    unfold u0_signed_EN
    simp only [abs_zero, zero_mul]
    rw [if_neg (by norm_num), hypot_zero_y, abs_zero]
  · have habs : |u0| = u0 := abs_of_pos hu
    have habs_pos : 0 < |u0| := abs_pos.mpr (ne_of_gt hu)
    rcases hb.lt_or_lt with hbneg | hbpos
    · -- u0 > 0, b < 0 : sign = -1, branch (-b, a), East comp > 0
      have hs : sign (u0 * (piE * b)) = -1 :=
        sign_of_neg (by nlinarith [mul_pos (mul_pos hu hpiE) (neg_pos.2 hbneg)])
      unfold u0hat_EN
      rw [hs, if_pos (by norm_num)]
      unfold u0_signed_EN
      simp only
      rw [if_neg (by nlinarith [mul_pos habs_pos (neg_pos.2 hbneg)]), hypot_abs_mul,
        abs_abs, hnba, mul_one, habs]
    · -- u0 > 0, b > 0 : sign = 1, branch (b, -a), East comp > 0
      have hs : sign (u0 * (piE * b)) = 1 :=
        sign_of_pos (by nlinarith [mul_pos (mul_pos hu hpiE) hbpos])
      unfold u0hat_EN
      rw [hs, if_neg (by norm_num), if_pos (by norm_num)]
      unfold u0_signed_EN
      simp only
      rw [if_neg (by nlinarith [mul_pos habs_pos hbpos]), hypot_abs_mul, abs_abs, hba,
        mul_one, habs]

/-- Encoding a vector perpendicular to the unit `tauhat = (g1, g2)` (with
`g2 ≠ 0`) into a signed `u0` with `u0_signed_EN` and decoding it back with
`u0hat_EN` recovers the vector exactly. -/
theorem EN_encode_decode_inner (g1 g2 piE WE WN : ℝ)
    (hgunit : g1 ^ 2 + g2 ^ 2 = 1) (hg2 : g2 ≠ 0) (hpiE : 0 < piE)
    (hWperp : g1 * WE + g2 * WN = 0) :
    (|u0_signed_EN (WE, WN)| *
        (u0hat_EN (u0_signed_EN (WE, WN)) (piE * g1) (piE * g2) g1 g2).1,
     |u0_signed_EN (WE, WN)| *
        (u0hat_EN (u0_signed_EN (WE, WN)) (piE * g1) (piE * g2) g1 g2).2) =
      (WE, WN) := by
  obtain ⟨lam, hlam⟩ : ∃ lam, lam = g1 * WN - g2 * WE := ⟨_, rfl⟩
  have hWE' : WE = -(lam * g2) := by
    rw [hlam]; linear_combination g1 * hWperp - WE * hgunit
  have hWN' : WN = lam * g1 := by
    rw [hlam]; linear_combination g2 * hWperp - WN * hgunit
  rw [hWE', hWN']
  have hhyp : hypot (-(lam * g2)) (lam * g1) = |lam| := by
    rw [show -(lam * g2) = lam * -g2 by ring, hypot_abs_mul,
      hypot_eq_one (-g2) g1 (by linear_combination hgunit), mul_one]
  rcases lt_trichotomy lam 0 with hl | hl | hl
  · rcases hg2.lt_or_lt with hg | hg
    · -- lam < 0, g2 < 0 : u0_signed is -hypot = lam, decode picks (g2, -g1)
      have hu0g : u0_signed_EN (-(lam * g2), lam * g1) = lam := by
        unfold u0_signed_EN
        rw [if_pos (by simp only; nlinarith [mul_pos (neg_pos.2 hl) (neg_pos.2 hg)])]
        simp only
        rw [hhyp, abs_of_neg hl, neg_neg]
      rw [hu0g]
      have hs : sign (lam * (piE * g2)) = 1 :=
        sign_of_pos (by nlinarith [mul_pos (mul_pos (neg_pos.2 hl) hpiE) (neg_pos.2 hg)])
      unfold u0hat_EN
      rw [hs, if_neg (by norm_num), if_pos (by norm_num), abs_of_neg hl]
      simp only [Prod.mk.injEq]
      constructor <;> ring
    · -- lam < 0, g2 > 0 : u0_signed is hypot = -lam, decode picks (g2, -g1)
      have hu0g : u0_signed_EN (-(lam * g2), lam * g1) = -lam := by
        unfold u0_signed_EN
        rw [if_neg (by simp only; nlinarith [mul_pos (neg_pos.2 hl) hg])]
        simp only
        rw [hhyp, abs_of_neg hl]
      rw [hu0g]
      have hs : sign (-lam * (piE * g2)) = 1 :=
        sign_of_pos (by nlinarith [mul_pos (mul_pos (neg_pos.2 hl) hpiE) hg])
      unfold u0hat_EN
      rw [hs, if_neg (by norm_num), if_pos (by norm_num), abs_neg, abs_of_neg hl]
      simp only [Prod.mk.injEq]
      constructor <;> ring
  · subst hl
    simp [u0_signed_EN, hypot_zero_y]
  · rcases hg2.lt_or_lt with hg | hg
    · -- lam > 0, g2 < 0 : u0_signed is hypot = lam, decode picks (-g2, g1)
      have hu0g : u0_signed_EN (-(lam * g2), lam * g1) = lam := by
        unfold u0_signed_EN
        rw [if_neg (by simp only; nlinarith [mul_pos hl (neg_pos.2 hg)])]
        simp only
        rw [hhyp, abs_of_pos hl]
      rw [hu0g]
      have hs : sign (lam * (piE * g2)) = -1 :=
        sign_of_neg (by nlinarith [mul_pos (mul_pos hl hpiE) (neg_pos.2 hg)])
      unfold u0hat_EN
      rw [hs, if_pos (by norm_num), abs_of_pos hl]
      simp only [Prod.mk.injEq]
      constructor <;> ring
    · -- lam > 0, g2 > 0 : u0_signed is -hypot = -lam, decode picks (-g2, g1)
      have hu0g : u0_signed_EN (-(lam * g2), lam * g1) = -lam := by
        unfold u0_signed_EN
        rw [if_pos (by simp only; nlinarith [mul_pos hl hg])]
        simp only
        rw [hhyp, abs_of_pos hl]
      rw [hu0g]
      have hs : sign (-lam * (piE * g2)) = -1 :=
        sign_of_neg (by nlinarith [mul_pos (mul_pos hl hpiE) hg])
      unfold u0hat_EN
      rw [hs, if_pos (by norm_num), abs_neg, abs_of_pos hl]
      simp only [Prod.mk.injEq]
      constructor <;> ring

/-- Core algebra of the `convert_u0vec_t0` round trip: with unit input
direction `(a, b)`, `u0vec_in = (U_E, U_N)` perpendicular to it, and the
helio-call outputs `t0g` and `(WE, WN)` written in cleaned form, the geo call
recovers `t0` and `(U_E, U_N)` exactly. -/
theorem u0vec_t0_core (parE parN t0par t0 tE tEo piE a b g1 g2 U_E U_N t0g WE WN : ℝ)
    (hunit : a ^ 2 + b ^ 2 = 1) (htE : tE ≠ 0)
    (hperp : a * U_E + b * U_N = 0)
    (hWE : WE = U_E + a * ((t0par - t0) / tE) - g1 * ((t0par - t0g) / tEo) - piE * parE)
    (hWN : WN = U_N + b * ((t0par - t0) / tE) - g2 * ((t0par - t0g) / tEo) - piE * parN) :
    (t0g - tE * (a * (WE + piE * parE - (t0g - t0par) * (g1 / tEo - a / tE)) +
                 b * (WN + piE * parN - (t0g - t0par) * (g2 / tEo - b / tE))) = t0) ∧
    (WE + g1 * ((t0par - t0g) / tEo) - a * ((t0par - t0) / tE) + piE * parE = U_E) ∧
    (WN + g2 * ((t0par - t0g) / tEo) - b * ((t0par - t0) / tE) + piE * parN = U_N) := by
  refine ⟨?_, by rw [hWE]; ring, by rw [hWN]; ring⟩
  have hvE : WE + piE * parE - (t0g - t0par) * (g1 / tEo - a / tE) =
      U_E + a * ((t0g - t0) / tE) := by rw [hWE]; ring
  have hvN : WN + piE * parN - (t0g - t0par) * (g2 / tEo - b / tE) =
      U_N + b * ((t0g - t0) / tE) := by rw [hWN]; ring
  rw [hvE, hvN]
  have hdot : a * (U_E + a * ((t0g - t0) / tE)) + b * (U_N + b * ((t0g - t0) / tE)) =
      (t0g - t0) / tE := by
    linear_combination hperp + ((t0g - t0) / tE) * hunit
  rw [hdot, ← mul_div_assoc, mul_div_cancel_left₀ _ htE]
  ring

/-- The helio-call output vector `(WE, WN)` is perpendicular to the output
direction `(g1, g2)` (this is where the value of `t0g` matters). -/
theorem u0vec_t0_perp (parE parN t0par t0 tE tEo piE a b g1 g2 U_E U_N t0g WE WN : ℝ)
    (hgunit : g1 ^ 2 + g2 ^ 2 = 1) (htEo : tEo ≠ 0)
    (ht0g : t0g = t0 - tEo *
      (g1 * (U_E - piE * parE - (t0 - t0par) * (a / tE - g1 / tEo)) +
       g2 * (U_N - piE * parN - (t0 - t0par) * (b / tE - g2 / tEo))))
    (hWE : WE = U_E + a * ((t0par - t0) / tE) - g1 * ((t0par - t0g) / tEo) - piE * parE)
    (hWN : WN = U_N + b * ((t0par - t0) / tE) - g2 * ((t0par - t0g) / tEo) - piE * parN) :
    g1 * WE + g2 * WN = 0 := by
  have h1 : (t0par - t0g) / tEo = (t0par - t0) / tEo +
      (g1 * (U_E - piE * parE - (t0 - t0par) * (a / tE - g1 / tEo)) +
       g2 * (U_N - piE * parN - (t0 - t0par) * (b / tE - g2 / tEo))) := by
    rw [ht0g]
    field_simp
    ring
  rw [hWE, hWN]
  have hdotW : g1 * (U_E + a * ((t0par - t0) / tE) - g1 * ((t0par - t0g) / tEo) - piE * parE) +
      g2 * (U_N + b * ((t0par - t0) / tE) - g2 * ((t0par - t0g) / tEo) - piE * parN) =
      (g1 * U_E + g2 * U_N) + (g1 * a + g2 * b) * ((t0par - t0) / tE) -
      (g1 ^ 2 + g2 ^ 2) * ((t0par - t0g) / tEo) - piE * (g1 * parE + g2 * parN) := by
    ring
  rw [hdotW, hgunit, one_mul, h1]
  linear_combination (-((t0 - t0par) / tEo)) * hgunit

/-- Controlled unfolding of `convert_helio_geo_phot` with `murel_in =
murel_out = SL` and `coord_in = coord_out = EN`, given the result of the
inner `convert_piEvec_tE` call. -/
theorem convert_helio_geo_phot_SL_EN_unfold (vE vN parE parN t0 u0 tE pE pN t0par : ℝ)
    (frame : Frame) (pE1 pN1 tE1 : ℝ)
    (hconv : convert_piEvec_tE vE vN pE pN tE frame = .ok (pE1, pN1, tE1)) :
    convert_helio_geo_phot vE vN parE parN t0 u0 tE pE pN t0par frame .SL .SL .EN .EN =
      .ok ((convert_u0vec_t0 parE parN t0par t0 u0 tE tE1 (hypot pE pN)
             (pE / hypot pE pN) (pN / hypot pE pN)
             (u0hat_EN u0 pE pN (pE / hypot pE pN) (pN / hypot pE pN)).1
             (u0hat_EN u0 pE pN (pE / hypot pE pN) (pN / hypot pE pN)).2
             (pE1 / hypot pE pN) (pN1 / hypot pE pN) frame).1,
           u0_signed_EN (convert_u0vec_t0 parE parN t0par t0 u0 tE tE1 (hypot pE pN)
             (pE / hypot pE pN) (pN / hypot pE pN)
             (u0hat_EN u0 pE pN (pE / hypot pE pN) (pN / hypot pE pN)).1
             (u0hat_EN u0 pE pN (pE / hypot pE pN) (pN / hypot pE pN)).2
             (pE1 / hypot pE pN) (pN1 / hypot pE pN) frame).2,
           tE1, pE1, pN1) := by
  unfold convert_helio_geo_phot
  show Except.bind (convert_piEvec_tE vE vN pE pN tE frame) _ = _
  rw [hconv]
  rfl

/-- First component (`t0_out`) of the helio call of `convert_u0vec_t0`, with
the `piE` factors cancelled. -/
theorem convert_u0vec_t0_fst_helio (parE parN t0par t0 u0 tE tEo piE a b uE uN g1 g2 : ℝ)
    (hpiE : piE ≠ 0) :
    (convert_u0vec_t0 parE parN t0par t0 u0 tE tEo piE a b uE uN g1 g2 .helio).1 =
      t0 - tEo * (g1 * (|u0| * uE - piE * parE - (t0 - t0par) * (a / tE - g1 / tEo)) +
                  g2 * (|u0| * uN - piE * parN - (t0 - t0par) * (b / tE - g2 / tEo))) := by
  have hcan : ∀ c x : ℝ, c * piE * (x / piE) = c * x := fun c x => by
    rw [mul_assoc, ← mul_div_assoc, mul_div_cancel_left₀ _ hpiE]
  simp only [convert_u0vec_t0]
  rw [hcan, hcan]

/-- First component (`t0_out`) of the geo call of `convert_u0vec_t0`. -/
theorem convert_u0vec_t0_fst_geo (parE parN t0par t0 u0 tE tEo piE a b uE uN g1 g2 : ℝ)
    (hpiE : piE ≠ 0) :
    (convert_u0vec_t0 parE parN t0par t0 u0 tE tEo piE a b uE uN g1 g2 .geo).1 =
      t0 - tEo * (g1 * (|u0| * uE + piE * parE - (t0 - t0par) * (a / tE - g1 / tEo)) +
                  g2 * (|u0| * uN + piE * parN - (t0 - t0par) * (b / tE - g2 / tEo))) := by
  have hcan : ∀ c x : ℝ, c * piE * (x / piE) = c * x := fun c x => by
    rw [mul_assoc, ← mul_div_assoc, mul_div_cancel_left₀ _ hpiE]
  simp only [convert_u0vec_t0]
  rw [hcan, hcan]
  ring

/-- Second component (the output impact vector) of the helio call, written
with an abstract name `T0r` for the first component. -/
theorem convert_u0vec_t0_snd_helio (parE parN t0par t0 u0 tE tEo piE a b uE uN g1 g2 T0r : ℝ)
    (hT0 : (convert_u0vec_t0 parE parN t0par t0 u0 tE tEo piE a b uE uN g1 g2 .helio).1 = T0r) :
    (convert_u0vec_t0 parE parN t0par t0 u0 tE tEo piE a b uE uN g1 g2 .helio).2 =
      (|u0| * uE + a * ((t0par - t0) / tE) - g1 * ((t0par - T0r) / tEo) - piE * parE,
       |u0| * uN + b * ((t0par - t0) / tE) - g2 * ((t0par - T0r) / tEo) - piE * parN) := by
  simp only [convert_u0vec_t0] at hT0 ⊢
  rw [hT0]
  simp only [Prod.mk.injEq]
  constructor <;> ring

/-- Second component of the geo call, with abstract first component `T0r`. -/
theorem convert_u0vec_t0_snd_geo (parE parN t0par t0 u0 tE tEo piE a b uE uN g1 g2 T0r : ℝ)
    (hT0 : (convert_u0vec_t0 parE parN t0par t0 u0 tE tEo piE a b uE uN g1 g2 .geo).1 = T0r) :
    (convert_u0vec_t0 parE parN t0par t0 u0 tE tEo piE a b uE uN g1 g2 .geo).2 =
      (|u0| * uE + a * ((t0par - t0) / tE) - g1 * ((t0par - T0r) / tEo) + piE * parE,
       |u0| * uN + b * ((t0par - t0) / tE) - g2 * ((t0par - T0r) / tEo) + piE * parN) := by
  simp only [convert_u0vec_t0] at hT0 ⊢
  rw [hT0]
  simp only [Prod.mk.injEq]
  constructor <;> ring

/-- Claim C1, amended: with `murel_in = murel_out = SL` and `coord_in =
coord_out = EN` on both calls (the second call taking the outputs of the
first, same `t0par` hence same ephemeris values), `convert_helio_geo_phot`
applied helio→geo then geo→helio recovers `(t0, u0, tE, piEE, piEN)`
exactly, provided the parallax vector is nonzero with `piEN_in ≠ 0`, the
timescale is positive, and the geocentric-frame North tilde-velocity
component is nonzero (the boundary excluded by the counterexample). -/
theorem C1_roundtrip (vE vN parE parN t0par t0 u0 tE piEE piEN : ℝ)
    (hpiE : hypot piEE piEN ≠ 0) (htE : 0 < tE) (hpiEN : piEN ≠ 0)
    (hgN : vtildeN_out vN piEE piEN tE .helio ≠ 0) :
    ∃ t0g u0g tEg piEEg piENg,
      convert_helio_geo_phot vE vN parE parN t0 u0 tE piEE piEN t0par
        .helio .SL .SL .EN .EN = .ok (t0g, u0g, tEg, piEEg, piENg) ∧
      convert_helio_geo_phot vE vN parE parN t0g u0g tEg piEEg piENg t0par
        .geo .SL .SL .EN .EN = .ok (t0, u0, tE, piEE, piEN) := by
  have htE' : tE ≠ 0 := ne_of_gt htE
  have hxN : vtildeN_in piEE piEN tE + vN ≠ 0 := by
    intro h
    apply hgN
    simp only [vtildeN_out]
    linarith
  have hout' : ¬(vtildeE_in piEE piEN tE + vE = 0 ∧ vtildeN_in piEE piEN tE + vN = 0) :=
    fun h => hxN h.2
  have hA := convert_piEvec_tE_helio_eq vE vN piEE piEN tE hpiE
  have hB := convert_piEvec_tE_geo_inverse vE vN piEE piEN tE hpiE htE hout'
  have hU1 := convert_helio_geo_phot_SL_EN_unfold vE vN parE parN t0 u0 tE piEE piEN
    t0par .helio _ _ _ hA
  -- opaque names for the recurring subterms
  obtain ⟨P, hPdef⟩ : ∃ x : ℝ, x = hypot piEE piEN := ⟨_, rfl⟩
  obtain ⟨wE, hwEdef⟩ : ∃ x : ℝ, x = vtildeE_in piEE piEN tE := ⟨_, rfl⟩
  obtain ⟨wN, hwNdef⟩ : ∃ x : ℝ, x = vtildeN_in piEE piEN tE := ⟨_, rfl⟩
  rw [← hPdef, ← hwEdef, ← hwNdef] at hA hB hU1
  rw [← hwNdef] at hxN
  obtain ⟨r, hrdef⟩ : ∃ x : ℝ, x = hypot (wE + vE) (wN + vN) := ⟨_, rfl⟩
  rw [← hrdef] at hA hB hU1
  obtain ⟨tEg, htEgdef⟩ : ∃ x : ℝ, x = hypot wE wN / r * tE := ⟨_, rfl⟩
  rw [← htEgdef] at hA hB hU1
  -- positivity facts
  have hP : 0 < P := by
    rw [hPdef]
    exact lt_of_le_of_ne (hypot_nonneg _ _) (Ne.symm hpiE)
  have hP' : P ≠ 0 := ne_of_gt hP
  have hr : 0 < r := by
    rw [hrdef]
    exact hypot_pos _ _ fun hc => hxN hc.2
  have hr' : r ≠ 0 := ne_of_gt hr
  have htEgpos : 0 < tEg := by
    rw [htEgdef, hwEdef, hwNdef, hypot_vtilde_in piEE piEN tE hpiE htE, ← hPdef]
    exact mul_pos (div_pos (div_pos AU_pos (mul_pos htE hP)) hr) htE
  have htEg' : tEg ≠ 0 := ne_of_gt htEgpos
  -- unit vectors and their properties
  have hab : (piEE / P) ^ 2 + (piEN / P) ^ 2 = 1 := by
    have hraw : P ^ 2 = piEE ^ 2 + piEN ^ 2 := by rw [hPdef]; exact hypot_sq _ _
    field_simp
    linarith [hraw]
  have hb : piEN / P ≠ 0 := div_ne_zero hpiEN hP'
  have hgunit : ((wE + vE) / r) ^ 2 + ((wN + vN) / r) ^ 2 = 1 := by
    have hraw : r ^ 2 = (wE + vE) ^ 2 + (wN + vN) ^ 2 := by rw [hrdef]; exact hypot_sq _ _
    field_simp
    linarith [hraw]
  have hg2 : (wN + vN) / r ≠ 0 := div_ne_zero hxN hr'
  have hq1 : P * ((wE + vE) / r) / P = (wE + vE) / r := mul_div_cancel_left₀ _ hP'
  have hq2 : P * ((wN + vN) / r) / P = (wN + vN) / r := mul_div_cancel_left₀ _ hP'
  rw [hq1, hq2] at hU1
  obtain ⟨uh1, huh1⟩ : ∃ x : ℝ, x = (u0hat_EN u0 piEE piEN (piEE / P) (piEN / P)).1 :=
    ⟨_, rfl⟩
  obtain ⟨uh2, huh2⟩ : ∃ x : ℝ, x = (u0hat_EN u0 piEE piEN (piEE / P) (piEN / P)).2 :=
    ⟨_, rfl⟩
  rw [← huh1, ← huh2] at hU1
  obtain ⟨R1, hR1⟩ : ∃ x : ℝ × (ℝ × ℝ), x = convert_u0vec_t0 parE parN t0par t0 u0 tE tEg P
      (piEE / P) (piEN / P) uh1 uh2 ((wE + vE) / r) ((wN + vN) / r) Frame.helio :=
    ⟨_, rfl⟩
  rw [← hR1] at hU1
  have heta : R1.2 = (R1.2.1, R1.2.2) := rfl
  rw [heta] at hU1
  -- the first call in closed form
  have hfst1 : R1.1 = t0 - tEg *
      ((wE + vE) / r * (|u0| * uh1 - P * parE -
          (t0 - t0par) * ((piEE / P) / tE - ((wE + vE) / r) / tEg)) +
       (wN + vN) / r * (|u0| * uh2 - P * parN -
          (t0 - t0par) * ((piEN / P) / tE - ((wN + vN) / r) / tEg))) :=
    (congrArg Prod.fst hR1).trans
      (convert_u0vec_t0_fst_helio parE parN t0par t0 u0 tE tEg P (piEE / P) (piEN / P)
        uh1 uh2 ((wE + vE) / r) ((wN + vN) / r) hP')
  have hsnd1 := convert_u0vec_t0_snd_helio parE parN t0par t0 u0 tE tEg P (piEE / P)
    (piEN / P) uh1 uh2 ((wE + vE) / r) ((wN + vN) / r) R1.1
    ((congrArg Prod.fst hR1).symm)
  rw [← hR1] at hsnd1
  have h21 : R1.2.1 = |u0| * uh1 + (piEE / P) * ((t0par - t0) / tE) -
      ((wE + vE) / r) * ((t0par - R1.1) / tEg) - P * parE := by rw [hsnd1]
  have h22 : R1.2.2 = |u0| * uh2 + (piEN / P) * ((t0par - t0) / tE) -
      ((wN + vN) / r) * ((t0par - R1.1) / tEg) - P * parN := by rw [hsnd1]
  -- perpendicularity of the input and output impact vectors
  have hperp0 := u0hat_EN_perp u0 piEE piEN (piEE / P) (piEN / P)
  rw [← huh1, ← huh2] at hperp0
  have hperpU : (piEE / P) * (|u0| * uh1) + (piEN / P) * (|u0| * uh2) = 0 := by
    linear_combination |u0| * hperp0
  have hWperp := u0vec_t0_perp parE parN t0par t0 tE tEg P (piEE / P) (piEN / P)
    ((wE + vE) / r) ((wN + vN) / r) (|u0| * uh1) (|u0| * uh2) R1.1 R1.2.1 R1.2.2
    hgunit htEg' hfst1 h21 h22
  -- the geo-call decode restores the impact vector
  have hinner := EN_encode_decode_inner ((wE + vE) / r) ((wN + vN) / r) P R1.2.1 R1.2.2
    hgunit hg2 hP hWperp
  rw [Prod.mk.injEq] at hinner
  obtain ⟨hin1, hin2⟩ := hinner
  -- core algebra of the u0 vector round trip
  have hcore := u0vec_t0_core parE parN t0par t0 tE tEg P (piEE / P) (piEN / P)
    ((wE + vE) / r) ((wN + vN) / r) (|u0| * uh1) (|u0| * uh2) R1.1 R1.2.1 R1.2.2
    hab htE' hperpU h21 h22
  -- assemble
  refine ⟨_, _, _, _, _, hU1, ?_⟩
  rw [convert_helio_geo_phot_SL_EN_unfold vE vN parE parN _ _ tEg _ _ t0par Frame.geo
    _ _ _ hB]
  have hP2 : hypot (P * ((wE + vE) / r)) (P * ((wN + vN) / r)) = P := by
    rw [show P * ((wE + vE) / r) = P / r * (wE + vE) by ring,
      show P * ((wN + vN) / r) = P / r * (wN + vN) by ring,
      hypot_mul _ _ _ (div_nonneg hP.le hr.le), ← hrdef]
    exact div_mul_cancel₀ P hr'
  rw [hP2, hq1, hq2]
  have hgeo1 := convert_u0vec_t0_fst_geo parE parN t0par R1.1
    (u0_signed_EN (R1.2.1, R1.2.2)) tEg tE P ((wE + vE) / r) ((wN + vN) / r)
    (u0hat_EN (u0_signed_EN (R1.2.1, R1.2.2)) (P * ((wE + vE) / r)) (P * ((wN + vN) / r))
      ((wE + vE) / r) ((wN + vN) / r)).1
    (u0hat_EN (u0_signed_EN (R1.2.1, R1.2.2)) (P * ((wE + vE) / r)) (P * ((wN + vN) / r))
      ((wE + vE) / r) ((wN + vN) / r)).2
    (piEE / P) (piEN / P) hP'
  rw [hin1, hin2] at hgeo1
  have hfst2eq := hgeo1.trans hcore.1
  rw [hfst2eq]
  have hgeo2 := convert_u0vec_t0_snd_geo parE parN t0par R1.1
    (u0_signed_EN (R1.2.1, R1.2.2)) tEg tE P ((wE + vE) / r) ((wN + vN) / r)
    (u0hat_EN (u0_signed_EN (R1.2.1, R1.2.2)) (P * ((wE + vE) / r)) (P * ((wN + vN) / r))
      ((wE + vE) / r) ((wN + vN) / r)).1
    (u0hat_EN (u0_signed_EN (R1.2.1, R1.2.2)) (P * ((wE + vE) / r)) (P * ((wN + vN) / r))
      ((wE + vE) / r) ((wN + vN) / r)).2
    (piEE / P) (piEN / P) t0 hfst2eq
  rw [hin1, hin2] at hgeo2
  have hW2 : (convert_u0vec_t0 parE parN t0par R1.1 (u0_signed_EN (R1.2.1, R1.2.2)) tEg tE
      P ((wE + vE) / r) ((wN + vN) / r)
      (u0hat_EN (u0_signed_EN (R1.2.1, R1.2.2)) (P * ((wE + vE) / r)) (P * ((wN + vN) / r))
        ((wE + vE) / r) ((wN + vN) / r)).1
      (u0hat_EN (u0_signed_EN (R1.2.1, R1.2.2)) (P * ((wE + vE) / r)) (P * ((wN + vN) / r))
        ((wE + vE) / r) ((wN + vN) / r)).2
      (piEE / P) (piEN / P) Frame.geo).2 = (|u0| * uh1, |u0| * uh2) := by
    rw [hgeo2, hcore.2.1, hcore.2.2]
  rw [hW2]
  have houter := EN_decode_encode_outer (piEE / P) (piEN / P) P u0 hab hP hb
  have hbrE : P * (piEE / P) = piEE := by
    rw [mul_comm]; exact div_mul_cancel₀ piEE hP'
  have hbrN : P * (piEN / P) = piEN := by
    rw [mul_comm]; exact div_mul_cancel₀ piEN hP'
  rw [hbrE, hbrN, ← huh1, ← huh2] at houter
  rw [houter]

theorem hypot_zero_one : hypot 0 1 = 1 := by
  rw [hypot_zero_y]
  norm_num

/-- Witness for `C1_roundtrip`: Earth velocity `(30, 10)` km/s, parallax
displacement `(0, 0)` AU, `t0par = 0`, inputs `t0 = 0`, `u0 = 1/10`,
`tE = 1`, `(piEE, piEN) = (0, 1)`. -/
theorem C1_roundtrip_witness :
    ∃ t0g u0g tEg piEEg piENg,
      convert_helio_geo_phot 30 10 0 0 0 (1/10) 1 0 1 0
        .helio .SL .SL .EN .EN = .ok (t0g, u0g, tEg, piEEg, piENg) ∧
      convert_helio_geo_phot 30 10 0 0 t0g u0g tEg piEEg piENg 0
        .geo .SL .SL .EN .EN = .ok (0, 1/10, 1, 0, 1) :=
  C1_roundtrip 30 10 0 0 0 0 (1/10) 1 0 1
    (by rw [hypot_zero_one]; norm_num) (by norm_num) (by norm_num)
    (by
      simp only [vtildeN_out, vtildeN_in, hypot_zero_one]
      unfold AU_PER_DAY_TO_KM_S
      norm_num)

/-- Claim C1, counterexample: with Earth velocity `(30, 0)` km/s and
parallax displacement `(0, 3/10)` AU at `t0par = 0` (all finite, parallax
vector `(1, 0)` of magnitude 1), the helio→geo call of
`convert_helio_geo_phot` with `murel = SL`, `coord = EN` on both sides
returns `u0_geo = 1/5`, and feeding its outputs back with
`in_frame = "geo"` returns `u0 = 1/2` instead of the original `u0 = 1/10`:
the geo-frame parallax North component is exactly zero, the EN sign
convention cannot represent the North-negative impact vector, and the
round trip misses the original `u0` by `2/5`, far beyond the claimed `1e-6`
tolerance (while `t0`, `tE` and the parallax components do return). -/
theorem C1_counterexample :
    convert_helio_geo_phot 30 0 0 (3/10) 0 (1/10) 1 1 0 0 .helio .SL .SL .EN .EN =
      .ok (0, 1/5, AU_PER_DAY_TO_KM_S / (AU_PER_DAY_TO_KM_S + 30), 1, 0) ∧
    convert_helio_geo_phot 30 0 0 (3/10) 0 (1/5)
      (AU_PER_DAY_TO_KM_S / (AU_PER_DAY_TO_KM_S + 30)) 1 0 0 .geo .SL .SL .EN .EN =
      .ok (0, 1/2, 1, 1, 0) ∧
    (1:ℝ) / 1000000 < |(1:ℝ)/2 - 1/10| := by
  have hK := AU_pos
  have hK30 : (0:ℝ) < AU_PER_DAY_TO_KM_S + 30 := by linarith
  have h1 : hypot 1 0 ≠ 0 := by rw [hypot_one_zero]; norm_num
  have hvE1 : vtildeE_in 1 0 1 = AU_PER_DAY_TO_KM_S := by
    unfold vtildeE_in
    rw [hypot_one_zero]
    norm_num
  have hvN1 : vtildeN_in 1 0 1 = 0 := by
    unfold vtildeN_in
    norm_num
  have hA1 : convert_piEvec_tE 30 0 1 0 1 .helio =
      .ok (1, 0, AU_PER_DAY_TO_KM_S / (AU_PER_DAY_TO_KM_S + 30)) := by
    rw [convert_piEvec_tE_helio_eq 30 0 1 0 1 h1, hvE1, hvN1, hypot_one_zero]
    rw [show (0:ℝ) + 0 = 0 by norm_num, hypot_x_zero, hypot_x_zero,
      abs_of_pos hK30, abs_of_pos hK, div_self (ne_of_gt hK30)]
    norm_num
  have huhatgen : ∀ u : ℝ, 0 < u → u0hat_EN u 1 0 1 0 = (0, 1) := by
    intro u hu
    unfold u0hat_EN
    rw [mul_zero, sign_zero, mul_one, sign_of_pos hu]
    rw [if_neg (by norm_num), if_neg (by norm_num), if_pos (by norm_num)]
    norm_num
  have hsE : ∀ W : ℝ × ℝ, W = (0, -(1/5)) → u0_signed_EN W = 1/5 := by
    rintro W rfl
    unfold u0_signed_EN
    simp only
    rw [if_neg (by norm_num), hypot_zero_y, abs_neg, abs_of_pos (by norm_num : (0:ℝ) < 1/5)]
  -- first call
  have hU1c := convert_helio_geo_phot_SL_EN_unfold 30 0 0 (3/10) 0 (1/10) 1 1 0 0
    .helio 1 0 (AU_PER_DAY_TO_KM_S / (AU_PER_DAY_TO_KM_S + 30)) hA1
  rw [hypot_one_zero] at hU1c
  simp only [div_one] at hU1c
  have huhat1 : (u0hat_EN (1/10) 1 0 1 0).1 = 0 := by rw [huhatgen (1/10) (by norm_num)]
  have huhat2 : (u0hat_EN (1/10) 1 0 1 0).2 = 1 := by rw [huhatgen (1/10) (by norm_num)]
  rw [huhat1, huhat2] at hU1c
  have hconv1 : convert_u0vec_t0 0 (3/10) 0 0 (1/10) 1
      (AU_PER_DAY_TO_KM_S / (AU_PER_DAY_TO_KM_S + 30)) 1 1 0 0 1 1 0 .helio =
      (0, (0, -(1/5))) := by
    simp only [convert_u0vec_t0, abs_of_pos (show (0:ℝ) < 1/10 by norm_num)]
    norm_num
  rw [hconv1] at hU1c
  -- second call
  have hvE2 : vtildeE_in 1 0 (AU_PER_DAY_TO_KM_S / (AU_PER_DAY_TO_KM_S + 30)) =
      AU_PER_DAY_TO_KM_S + 30 := by
    unfold vtildeE_in
    rw [hypot_one_zero]
    field_simp
  have hvN2 : vtildeN_in 1 0 (AU_PER_DAY_TO_KM_S / (AU_PER_DAY_TO_KM_S + 30)) = 0 := by
    unfold vtildeN_in
    norm_num
  have hA2 : convert_piEvec_tE 30 0 1 0
      (AU_PER_DAY_TO_KM_S / (AU_PER_DAY_TO_KM_S + 30)) .geo = .ok (1, 0, 1) := by
    simp only [convert_piEvec_tE, vtildeE_out, vtildeN_out, hvE2, hvN2, hypot_one_zero]
    rw [if_neg (by norm_num)]
    rw [show -(AU_PER_DAY_TO_KM_S + 30) + (30:ℝ) = -AU_PER_DAY_TO_KM_S by ring,
      show -(0:ℝ) + 0 = 0 by norm_num, hypot_x_zero, hypot_x_zero, abs_neg,
      abs_of_pos hK, abs_of_pos hK30]
    rw [neg_neg, div_self (ne_of_gt hK)]
    field_simp
  have hU2c := convert_helio_geo_phot_SL_EN_unfold 30 0 0 (3/10) 0 (1/5)
    (AU_PER_DAY_TO_KM_S / (AU_PER_DAY_TO_KM_S + 30)) 1 0 0 .geo 1 0 1 hA2
  rw [hypot_one_zero] at hU2c
  simp only [div_one] at hU2c
  have huhat1' : (u0hat_EN (1/5) 1 0 1 0).1 = 0 := by rw [huhatgen (1/5) (by norm_num)]
  have huhat2' : (u0hat_EN (1/5) 1 0 1 0).2 = 1 := by rw [huhatgen (1/5) (by norm_num)]
  rw [huhat1', huhat2'] at hU2c
  have hconv2 : convert_u0vec_t0 0 (3/10) 0 0 (1/5)
      (AU_PER_DAY_TO_KM_S / (AU_PER_DAY_TO_KM_S + 30)) 1 1 1 0 0 1 1 0 .geo =
      (0, (0, 1/2)) := by
    simp only [convert_u0vec_t0, abs_of_pos (show (0:ℝ) < 1/5 by norm_num)]
    norm_num
  rw [hconv2] at hU2c
  have hs5 : u0_signed_EN (((0:ℝ), (0:ℝ), -(1/5)) : ℝ × ℝ × ℝ).2 = 1/5 := hsE _ rfl
  rw [hs5] at hU1c
  have hs2 : u0_signed_EN (((0:ℝ), (0:ℝ), (1:ℝ)/2) : ℝ × ℝ × ℝ).2 = 1/2 := by
    show u0_signed_EN ((0:ℝ), (1:ℝ)/2) = 1/2
    unfold u0_signed_EN
    simp only
    rw [if_neg (by norm_num), hypot_zero_y, abs_of_pos (by norm_num : (0:ℝ) < 1/2)]
  rw [hs2] at hU2c
  refine ⟨hU1c, hU2c, ?_⟩
  rw [show |(1:ℝ)/2 - 1/10| = 2/5 by rw [abs_of_pos] <;> norm_num]
  norm_num

/-! ### Rotation utilities (rotations.py) -/

/-- A 2x2 real matrix, row-major entries. -/
structure Mat2 where
  a : ℝ
  b : ℝ
  c : ℝ
  d : ℝ

noncomputable def Mat2.mul (M N : Mat2) : Mat2 :=
  ⟨M.a * N.a + M.b * N.c, M.a * N.b + M.b * N.d,
   M.c * N.a + M.d * N.c, M.c * N.b + M.d * N.d⟩

def Mat2.transpose (M : Mat2) : Mat2 := ⟨M.a, M.c, M.b, M.d⟩

/-- `np.eye(2)`. -/
noncomputable def Mat2.eye2 : Mat2 := ⟨1, 0, 0, 1⟩

noncomputable def Mat2.det (M : Mat2) : ℝ := M.a * M.d - M.b * M.c

/-- `np.allclose` entrywise: `|x - y| <= atol + rtol * |y|`. -/
def Mat2.allclose (X Y : Mat2) (rtol atol : ℝ) : Prop :=
  |X.a - Y.a| ≤ atol + rtol * |Y.a| ∧ |X.b - Y.b| ≤ atol + rtol * |Y.b| ∧
  |X.c - Y.c| ≤ atol + rtol * |Y.c| ∧ |X.d - Y.d| ≤ atol + rtol * |Y.d|

noncomputable instance (X Y : Mat2) (rtol atol : ℝ) : Decidable (X.allclose Y rtol atol) :=
  inferInstanceAs (Decidable ((|X.a - Y.a| ≤ atol + rtol * |Y.a|) ∧
    (|X.b - Y.b| ≤ atol + rtol * |Y.b|) ∧ (|X.c - Y.c| ≤ atol + rtol * |Y.c|) ∧
    (|X.d - Y.d| ≤ atol + rtol * |Y.d|)))

theorem Mat2.allclose_refl (X : Mat2) (rtol atol : ℝ) (h1 : 0 ≤ rtol) (h2 : 0 ≤ atol) :
    X.allclose X rtol atol := by
  unfold Mat2.allclose
  refine ⟨?_, ?_, ?_, ?_⟩ <;>
    · rw [sub_self, abs_zero]
      exact add_nonneg h2 (mul_nonneg h1 (abs_nonneg _))

/-- `np.linalg.inv` for 2x2 matrices: `LinAlgError` on a singular input. -/
noncomputable def matInv (M : Mat2) : Except ConvError Mat2 :=
  if M.det = 0 then .error (.linAlgError "Singular matrix")
  else .ok ⟨M.d / M.det, -M.b / M.det, -M.c / M.det, M.a / M.det⟩

/-- `math.radians`. -/
noncomputable def radians (x : ℝ) : ℝ := x * (Real.pi / 180)

/-- `math.degrees`. -/
noncomputable def degrees (x : ℝ) : ℝ := x * (180 / Real.pi)

/-- `math.atan2 y x`. -/
noncomputable def atan2 (y x : ℝ) : ℝ := Complex.arg ⟨x, y⟩

/-- The diagnostic bundle returned by `rotation_xy_to_ne` (rotations.py 55-59). -/
structure RotDiag where
  phi_mu_deg : ℝ
  alpha_deg : ℝ
  phi_est_deg : ℝ

/-- `rotation_xy_to_tu` (rotations.py lines 10-20). -/
noncomputable def rotation_xy_to_tu (alpha_deg sgn : ℝ) : Mat2 :=
  ⟨Real.cos (radians alpha_deg), Real.sin (radians alpha_deg),
   -sgn * Real.sin (radians alpha_deg), sgn * Real.cos (radians alpha_deg)⟩

/-- `rotation_tu_to_xy` (rotations.py lines 23-25). -/
noncomputable def rotation_tu_to_xy (alpha_deg sgn : ℝ) : Except ConvError Mat2 :=
  matInv (rotation_xy_to_tu alpha_deg sgn)

/-- `rotation_xy_to_ne` (rotations.py lines 28-60).  The `np.isfinite`
validation of lines 35-40 is vacuous over the reals (every real is finite);
its NaN/Inf behaviour is modelled on `FV` below.  Everything else —
the zero checks, the `(N, E)`-ordered along-track unit vector, the signed
perpendicular, the composition with `rotation_xy_to_tu`, the
`np.allclose(R @ R.T, eye(2), atol=1e-10)` check (numpy default
`rtol = 1e-5`) and the diagnostic angles — mirrors the source. -/
noncomputable def rotation_xy_to_ne (mu_rel_E mu_rel_N alpha_deg sgn : ℝ) :
    Except ConvError (Mat2 × RotDiag) :=
  if mu_rel_E = 0 ∧ mu_rel_N = 0 then
    .error (.runtimeError "Relative proper motion vector is zero; cannot define along-track axis.")
  else
    let mu_norm := hypot mu_rel_N mu_rel_E
    if mu_norm = 0 then
      .error (.runtimeError "Relative proper motion vector is zero; cannot define along-track axis.")
    else
      let hat_t0 := mu_rel_N / mu_norm
      let hat_t1 := mu_rel_E / mu_norm
      let R_TU2NE : Mat2 := ⟨hat_t0, -sgn * hat_t1, hat_t1, sgn * hat_t0⟩
      let R := R_TU2NE.mul (rotation_xy_to_tu alpha_deg sgn)
      if (R.mul R.transpose).allclose Mat2.eye2 (1/10^5) (1/10^10) then
        .ok (R, ⟨degrees (atan2 mu_rel_E mu_rel_N), alpha_deg, degrees (atan2 R.b R.a)⟩)
      else
        .error (.runtimeError "Derived lens→NE rotation is not orthonormal within tolerance.")

/-- `rotation_ne_to_xy` (rotations.py lines 63-71). -/
noncomputable def rotation_ne_to_xy (mu_rel_E mu_rel_N alpha_deg sgn : ℝ) :
    Except ConvError (Mat2 × RotDiag) :=
  match rotation_xy_to_ne mu_rel_E mu_rel_N alpha_deg sgn with
  | .error e => .error e
  | .ok (R, diag) =>
    match matInv R with
    | .error e => .error e
    | .ok Ri => .ok (Ri, diag)

/-- `M * matInv M = I` whenever `matInv` succeeds. -/
theorem matInv_mul (M Mi : Mat2) (h : matInv M = .ok Mi) : M.mul Mi = Mat2.eye2 := by
  unfold matInv at h
  by_cases hd : M.det = 0
  · rw [if_pos hd] at h
    exact absurd h (by simp)
  · rw [if_neg hd] at h
    rw [Except.ok.injEq] at h
    subst h
    unfold Mat2.det at hd
    unfold Mat2.mul Mat2.det Mat2.eye2
    rw [Mat2.mk.injEq]
    refine ⟨?_, ?_, ?_, ?_⟩ <;> field_simp <;> ring

/-- Claim C7: for every `alpha_deg` in `[0, 360)` and `sgn` in `{-1, 1}`,
`rotation_xy_to_tu` returns the matrix `[[cos a, sin a], [-sgn sin a,
sgn cos a]]` (with `a` the angle in radians), `rotation_tu_to_xy` succeeds
(the matrix is invertible), and their product is the 2x2 identity. -/
theorem C7_xy_tu_inverse (alpha_deg sgn : ℝ)
    (_h0 : 0 ≤ alpha_deg) (_h360 : alpha_deg < 360) (hs : sgn = 1 ∨ sgn = -1) :
    rotation_xy_to_tu alpha_deg sgn =
      ⟨Real.cos (radians alpha_deg), Real.sin (radians alpha_deg),
       -sgn * Real.sin (radians alpha_deg), sgn * Real.cos (radians alpha_deg)⟩ ∧
    ∃ Mi, rotation_tu_to_xy alpha_deg sgn = .ok Mi ∧
      (rotation_xy_to_tu alpha_deg sgn).mul Mi = Mat2.eye2 := by
  have hdet : (rotation_xy_to_tu alpha_deg sgn).det = sgn := by
    unfold rotation_xy_to_tu Mat2.det
    linear_combination sgn * Real.sin_sq_add_cos_sq (radians alpha_deg)
  have hdet0 : (rotation_xy_to_tu alpha_deg sgn).det ≠ 0 := by
    rw [hdet]
    rcases hs with h | h <;> rw [h] <;> norm_num
  refine ⟨rfl, ?_⟩
  unfold rotation_tu_to_xy matInv
  rw [if_neg hdet0]
  exact ⟨_, rfl, matInv_mul _ _ (by unfold matInv; rw [if_neg hdet0])⟩

/-- Witness for `C7_xy_tu_inverse` at `alpha_deg = 0`, `sgn = 1`. -/
theorem C7_xy_tu_inverse_witness :
    rotation_xy_to_tu 0 1 =
      ⟨Real.cos (radians 0), Real.sin (radians 0),
       -1 * Real.sin (radians 0), 1 * Real.cos (radians 0)⟩ ∧
    ∃ Mi, rotation_tu_to_xy 0 1 = .ok Mi ∧
      (rotation_xy_to_tu 0 1).mul Mi = Mat2.eye2 :=
  C7_xy_tu_inverse 0 1 (by norm_num) (by norm_num) (Or.inl rfl)

/-- The matrix composed inside `rotation_xy_to_ne` is exactly orthonormal
for a unit along-track vector and `sgn` in `{-1, 1}`. -/
theorem rot_ne_orthonormal (t0 t1 alpha s : ℝ) (ht : t0 ^ 2 + t1 ^ 2 = 1)
    (hs : s = 1 ∨ s = -1) :
    ((Mat2.mk t0 (-s * t1) t1 (s * t0)).mul (rotation_xy_to_tu alpha s)).mul
      ((Mat2.mk t0 (-s * t1) t1 (s * t0)).mul (rotation_xy_to_tu alpha s)).transpose =
      Mat2.eye2 := by
  have hcs := Real.sin_sq_add_cos_sq (radians alpha)
  rcases hs with rfl | rfl <;>
    · unfold rotation_xy_to_tu Mat2.mul Mat2.transpose Mat2.eye2
      rw [Mat2.mk.injEq]
      refine ⟨?_, ?_, ?_, ?_⟩ <;>
        first
          | linear_combination
              (Real.sin (radians alpha) ^ 2 + Real.cos (radians alpha) ^ 2) * ht + hcs
          | linear_combination (0 : ℝ)

/-- Its `np.linalg.inv` succeeds (determinant 1) and is orthonormal too. -/
theorem rot_ne_inv (t0 t1 alpha s : ℝ) (ht : t0 ^ 2 + t1 ^ 2 = 1)
    (hs : s = 1 ∨ s = -1) :
    ∃ Ri, matInv ((Mat2.mk t0 (-s * t1) t1 (s * t0)).mul (rotation_xy_to_tu alpha s)) =
        .ok Ri ∧ Ri.mul Ri.transpose = Mat2.eye2 := by
  have hcs := Real.sin_sq_add_cos_sq (radians alpha)
  have hdet : ((Mat2.mk t0 (-s * t1) t1 (s * t0)).mul (rotation_xy_to_tu alpha s)).det
      = 1 := by
    rcases hs with rfl | rfl <;>
      · unfold rotation_xy_to_tu Mat2.mul Mat2.det
        linear_combination
          (Real.sin (radians alpha) ^ 2 + Real.cos (radians alpha) ^ 2) * ht + hcs
  refine ⟨_, by unfold matInv; rw [hdet]; rw [if_neg (by norm_num)], ?_⟩
  rcases hs with rfl | rfl <;>
    · unfold rotation_xy_to_tu Mat2.mul Mat2.transpose Mat2.eye2
      rw [Mat2.mk.injEq]
      refine ⟨?_, ?_, ?_, ?_⟩ <;>
        first
          | · field_simp
              linear_combination
                (Real.sin (radians alpha) ^ 2 + Real.cos (radians alpha) ^ 2) * ht + hcs
          | · field_simp
              linear_combination (0 : ℝ)

/-- Claim C6: for every nonzero finite proper-motion vector, finite
`alpha_deg`, and `sgn` in `{-1, +1}`, `rotation_xy_to_ne` returns normally
(the internal-consistency branch is unreachable), its matrix satisfies
`R Rᵀ = I` exactly — in particular entrywise within `1e-10` — and
`rotation_ne_to_xy` returns its inverse with the same property and the same
diagnostics. -/
theorem C6_orthonormal (mu_rel_E mu_rel_N alpha_deg sgn : ℝ)
    (hmu : ¬(mu_rel_E = 0 ∧ mu_rel_N = 0)) (hs : sgn = 1 ∨ sgn = -1) :
    ∃ R diag,
      rotation_xy_to_ne mu_rel_E mu_rel_N alpha_deg sgn = .ok (R, diag) ∧
      R.mul R.transpose = Mat2.eye2 ∧
      (R.mul R.transpose).allclose Mat2.eye2 0 (1/10^10) ∧
      ∃ Ri, rotation_ne_to_xy mu_rel_E mu_rel_N alpha_deg sgn = .ok (Ri, diag) ∧
        Ri.mul Ri.transpose = Mat2.eye2 := by
  have hnorm : hypot mu_rel_N mu_rel_E ≠ 0 := by
    rw [Ne, hypot_eq_zero_iff]
    rintro ⟨h1, h2⟩
    exact hmu ⟨h2, h1⟩
  have ht : (mu_rel_N / hypot mu_rel_N mu_rel_E) ^ 2 +
      (mu_rel_E / hypot mu_rel_N mu_rel_E) ^ 2 = 1 := by
    have hraw := hypot_sq mu_rel_N mu_rel_E
    field_simp
    linarith [hraw]
  have horth := rot_ne_orthonormal (mu_rel_N / hypot mu_rel_N mu_rel_E)
    (mu_rel_E / hypot mu_rel_N mu_rel_E) alpha_deg sgn ht hs
  obtain ⟨Ri, hRi, hRiorth⟩ := rot_ne_inv (mu_rel_N / hypot mu_rel_N mu_rel_E)
    (mu_rel_E / hypot mu_rel_N mu_rel_E) alpha_deg sgn ht hs
  obtain ⟨RR, hRR⟩ : ∃ x : Mat2, x = (Mat2.mk (mu_rel_N / hypot mu_rel_N mu_rel_E)
      (-sgn * (mu_rel_E / hypot mu_rel_N mu_rel_E))
      (mu_rel_E / hypot mu_rel_N mu_rel_E)
      (sgn * (mu_rel_N / hypot mu_rel_N mu_rel_E))).mul
        (rotation_xy_to_tu alpha_deg sgn) := ⟨_, rfl⟩
  rw [← hRR] at horth hRi
  have hchar : rotation_xy_to_ne mu_rel_E mu_rel_N alpha_deg sgn = .ok
      (RR, ⟨degrees (atan2 mu_rel_E mu_rel_N), alpha_deg,
            degrees (atan2 RR.b RR.a)⟩) := by
    simp only [rotation_xy_to_ne, if_neg hmu, if_neg hnorm]
    rw [← hRR, horth, if_pos (Mat2.allclose_refl Mat2.eye2 (1/10^5) (1/10^10)
      (by norm_num) (by norm_num))]
  refine ⟨RR, _, hchar, horth, ?_, Ri, ?_, hRiorth⟩
  · rw [horth]
    exact Mat2.allclose_refl _ _ _ (by norm_num) (by norm_num)
  · unfold rotation_ne_to_xy
    simp only [hchar, hRi]

/-- Witness for C6 at the repository test point `mu_rel_E = 5`,
`mu_rel_N = 12`, `alpha_deg = 20`, `sgn = 1`. -/
theorem C6_orthonormal_witness :
    ∃ R diag,
      rotation_xy_to_ne 5 12 20 1 = .ok (R, diag) ∧
      R.mul R.transpose = Mat2.eye2 ∧
      (R.mul R.transpose).allclose Mat2.eye2 0 (1/10^10) ∧
      ∃ Ri, rotation_ne_to_xy 5 12 20 1 = .ok (Ri, diag) ∧
        Ri.mul Ri.transpose = Mat2.eye2 :=
  C6_orthonormal 5 12 20 1 (by norm_num) (Or.inl rfl)

/-- Claim C10: `rotation_xy_to_ne` never validates `sgn`.  For `sgn = 0`
(outside the documented `{-1, +1}` set) with a nonzero proper-motion vector,
every input-validation check passes and the function instead raises the
internal-consistency `RuntimeError` from the orthonormality check: the
derived matrix has `R Rᵀ` with diagonal `(t0², t1²)` summing to 1, which
`np.allclose(·, I, rtol=1e-5, atol=1e-10)` always rejects. -/
theorem C10_sgn_zero (mu_rel_E mu_rel_N alpha_deg : ℝ)
    (hmu : ¬(mu_rel_E = 0 ∧ mu_rel_N = 0)) :
    rotation_xy_to_ne mu_rel_E mu_rel_N alpha_deg 0 =
      .error (.runtimeError "Derived lens→NE rotation is not orthonormal within tolerance.") := by
  have hnorm : hypot mu_rel_N mu_rel_E ≠ 0 := by
    rw [Ne, hypot_eq_zero_iff]
    rintro ⟨h1, h2⟩
    exact hmu ⟨h2, h1⟩
  obtain ⟨t0, ht0⟩ : ∃ x : ℝ, x = mu_rel_N / hypot mu_rel_N mu_rel_E := ⟨_, rfl⟩
  obtain ⟨t1, ht1⟩ : ∃ x : ℝ, x = mu_rel_E / hypot mu_rel_N mu_rel_E := ⟨_, rfl⟩
  have ht : t0 ^ 2 + t1 ^ 2 = 1 := by
    rw [ht0, ht1]
    have hraw := hypot_sq mu_rel_N mu_rel_E
    field_simp
    linarith [hraw]
  have hcs := Real.sin_sq_add_cos_sq (radians alpha_deg)
  obtain ⟨RR, hRR⟩ : ∃ x : Mat2, x = (Mat2.mk (mu_rel_N / hypot mu_rel_N mu_rel_E)
      (-0 * (mu_rel_E / hypot mu_rel_N mu_rel_E))
      (mu_rel_E / hypot mu_rel_N mu_rel_E)
      (0 * (mu_rel_N / hypot mu_rel_N mu_rel_E))).mul
        (rotation_xy_to_tu alpha_deg 0) := ⟨_, rfl⟩
  have hprod : RR.mul RR.transpose = Mat2.mk (t0 ^ 2) (t0 * t1) (t0 * t1) (t1 ^ 2) := by
    rw [hRR, ← ht0, ← ht1]
    unfold rotation_xy_to_tu Mat2.mul Mat2.transpose
    rw [Mat2.mk.injEq]
    refine ⟨?_, ?_, ?_, ?_⟩
    · linear_combination (t0 ^ 2) * hcs
    · linear_combination (t0 * t1) * hcs
    · linear_combination (t0 * t1) * hcs
    · linear_combination (t1 ^ 2) * hcs
  have hnc : ¬ (Mat2.mk (t0 ^ 2) (t0 * t1) (t0 * t1) (t1 ^ 2)).allclose
      Mat2.eye2 (1/10^5) (1/10^10) := by
    intro hc
    simp only [Mat2.allclose, Mat2.eye2] at hc
    obtain ⟨h1, -, -, h4⟩ := hc
    rw [abs_one] at h1 h4
    rw [abs_le] at h1 h4
    linarith [h1.1, h4.1, ht]
  simp only [rotation_xy_to_ne, if_neg hmu, if_neg hnorm]
  rw [← hRR, hprod, if_neg hnc]

/-- Witness for C10 at `mu_rel_E = 3`, `mu_rel_N = 4`, `alpha_deg = 0`. -/
theorem C10_sgn_zero_witness :
    rotation_xy_to_ne 3 4 0 0 =
      .error (.runtimeError "Derived lens→NE rotation is not orthonormal within tolerance.") :=
  C10_sgn_zero 3 4 0 (by norm_num)

/-! ### IEEE-754 value model for the NaN/Inf validation behaviour (claim C4)

The real-valued embedding above cannot express NaN or ±Inf, so the
validation paths are modelled on `FV`, an IEEE-754 double collapsed to
`real value / NaN / +Inf / -Inf` (the two signed zeros are collapsed to
`0`, which none of the statements below depend on).  Arithmetic follows
the IEEE special-value tables used by `numpy` scalars and Python
`math`: NaN propagates through every operation, `hypot(±Inf, y) = +Inf`
even for NaN `y`, `Inf * 0 = NaN`, `Inf - Inf = NaN`, `x / ±Inf = 0`,
`x / 0` is `±Inf` (or NaN for `0 / 0`, a warning but no exception in
numpy), `math.radians(±Inf) = ±Inf`, `math.cos/sin(NaN) = NaN`, and
`math.cos/sin(±Inf)` raises `ValueError("math domain error")`. -/

/-- An IEEE double: a finite real, NaN, or a signed infinity. -/
inductive FV where
  | num : ℝ → FV
  | nan : FV
  | inf : FV
  | ninf : FV

/-- `np.isnan`. -/
def FV.isnan : FV → Bool
  | .nan => true
  | _ => false

/-- `np.isfinite`. -/
def FV.isfinite : FV → Bool
  | .num _ => true
  | _ => false

/-- The float comparison `x == 0.0` (False for NaN and infinities). -/
noncomputable def FV.eqZero : FV → Bool
  | .num x => decide (x = 0)
  | _ => false

/-- IEEE negation. -/
def FV.neg : FV → FV
  | .num x => .num (-x)
  | .nan => .nan
  | .inf => .ninf
  | .ninf => .inf

/-- IEEE multiplication (`Inf * 0 = NaN`). -/
noncomputable def FV.mul : FV → FV → FV
  | .nan, _ => .nan
  | _, .nan => .nan
  | .num x, .num y => .num (x * y)
  | .inf, .inf => .inf
  | .inf, .ninf => .ninf
  | .ninf, .inf => .ninf
  | .ninf, .ninf => .inf
  | .inf, .num x => if 0 < x then .inf else if x < 0 then .ninf else .nan
  | .num x, .inf => if 0 < x then .inf else if x < 0 then .ninf else .nan
  | .ninf, .num x => if 0 < x then .ninf else if x < 0 then .inf else .nan
  | .num x, .ninf => if 0 < x then .ninf else if x < 0 then .inf else .nan

/-- IEEE addition (`Inf + (-Inf) = NaN`). -/
def FV.add : FV → FV → FV
  | .nan, _ => .nan
  | _, .nan => .nan
  | .inf, .ninf => .nan
  | .ninf, .inf => .nan
  | .inf, _ => .inf
  | _, .inf => .inf
  | .ninf, _ => .ninf
  | _, .ninf => .ninf
  | .num x, .num y => .num (x + y)

/-- numpy scalar division: no exception, `x/0 = ±Inf`, `0/0 = NaN`,
`x/±Inf = 0`, `±Inf/±Inf = NaN` (signed zeros collapsed). -/
noncomputable def FV.div : FV → FV → FV
  | .nan, _ => .nan
  | _, .nan => .nan
  | .num x, .num y =>
      if y = 0 then (if x = 0 then .nan else if 0 < x then .inf else .ninf)
      else .num (x / y)
  | .inf, .num y => if y < 0 then .ninf else .inf
  | .ninf, .num y => if y < 0 then .inf else .ninf
  | .num _, .inf => .num 0
  | .num _, .ninf => .num 0
  | .inf, .inf => .nan
  | .inf, .ninf => .nan
  | .ninf, .inf => .nan
  | .ninf, .ninf => .nan

/-- `np.hypot` on IEEE doubles: `+Inf` if either argument is infinite
(even when the other is NaN), NaN if either is NaN, else the real value. -/
noncomputable def FV.hypotFV : FV → FV → FV
  | .inf, _ => .inf
  | .ninf, _ => .inf
  | _, .inf => .inf
  | _, .ninf => .inf
  | .nan, _ => .nan
  | _, .nan => .nan
  | .num x, .num y => .num (hypot x y)

/-- `math.radians` on IEEE doubles (scaling by the positive constant
`pi / 180` preserves NaN and the sign of infinities). -/
noncomputable def FV.radiansFV : FV → FV
  | .num x => .num (radians x)
  | .nan => .nan
  | .inf => .inf
  | .ninf => .ninf

/-- `math.cos`: NaN propagates; an infinite argument raises
`ValueError("math domain error")`. -/
noncomputable def FV.cosFV : FV → Except ConvError FV
  | .num x => .ok (.num (Real.cos x))
  | .nan => .ok .nan
  | .inf => .error (.valueError "math domain error")
  | .ninf => .error (.valueError "math domain error")

/-- `math.sin`: same special-value behaviour as `math.cos`. -/
noncomputable def FV.sinFV : FV → Except ConvError FV
  | .num x => .ok (.num (Real.sin x))
  | .nan => .ok .nan
  | .inf => .error (.valueError "math domain error")
  | .ninf => .error (.valueError "math domain error")

/-- The numeric-validation clause of `_check_convert_inputs`
(helio_geo.py lines 36-37): only `np.isnan` is tested, on exactly the
five values `t0_in, u0_in, tE_in, piEE_in, piEN_in` (`t0par` is never
checked; the enumeration checks of lines 30-35 are discharged by the
Lean argument types of the embedding). -/
def check_convert_inputs_fp (t0_in u0_in tE_in piEE_in piEN_in : FV) :
    Except ConvError Unit :=
  if t0_in.isnan || u0_in.isnan || tE_in.isnan || piEE_in.isnan || piEN_in.isnan then
    .error (.valueError "conversion inputs must be finite numbers")
  else .ok ()

/-- `rotation_xy_to_tu` (rotations.py lines 10-20) on IEEE doubles:
`ca` is computed before `sa`, so an infinite `alpha_deg` surfaces as the
`ValueError` from `math.cos`; there is no validation of any kind. -/
noncomputable def rotation_xy_to_tu_fp (alpha_deg sgn : FV) :
    Except ConvError (FV × FV × FV × FV) :=
  (FV.cosFV (FV.radiansFV alpha_deg)).bind fun ca =>
  (FV.sinFV (FV.radiansFV alpha_deg)).bind fun sa =>
  .ok (ca, sa, (FV.neg sgn).mul sa, sgn.mul ca)

/-- The validation prefix of `rotation_xy_to_ne` (rotations.py lines
35-45): `np.isfinite` on `mu_rel_E`, `mu_rel_N`, the zero check, and
`np.isfinite` on `alpha_deg`.  `sgn` is never validated. -/
noncomputable def rotation_xy_to_ne_checks (mu_rel_E mu_rel_N alpha_deg _sgn : FV) :
    Except ConvError Unit :=
  if !(mu_rel_E.isfinite && mu_rel_N.isfinite) then
    .error (.runtimeError "Relative proper motion components must be finite for rotation diagnostic.")
  else if mu_rel_E.eqZero && mu_rel_N.eqZero then
    .error (.runtimeError "Relative proper motion vector is zero; cannot define along-track axis.")
  else if !alpha_deg.isfinite then
    .error (.runtimeError "alpha_deg must be finite to construct lens-frame rotation.")
  else .ok ()

/-- `convert_piEvec_tE` (vectors.py lines 92-149) on IEEE doubles, with
the ephemeris oracle abstracted as the finite reals `vE, vN` it returns:
the only checks are the frame enumeration (discharged by the `Frame`
type) and `piE == 0`; no NaN/Inf validation exists. -/
noncomputable def convert_piEvec_tE_fp (vE vN : ℝ) (piEE_in piEN_in tE_in : FV)
    (in_frame : Frame) : Except ConvError (FV × FV × FV) :=
  let piE := FV.hypotFV piEE_in piEN_in
  if piE.eqZero then .error (.valueError "piE vector cannot be zero-length.")
  else
    let piE2 := piE.mul piE
    let vtildeN := (piEN_in.div (tE_in.mul piE2)).mul (.num AU_PER_DAY_TO_KM_S)
    let vtildeE := (piEE_in.div (tE_in.mul piE2)).mul (.num AU_PER_DAY_TO_KM_S)
    let vtildeN_o := match in_frame with
      | .helio => vtildeN.neg.add (FV.num vN).neg
      | .geo => vtildeN.neg.add (FV.num vN)
    let vtildeE_o := match in_frame with
      | .helio => vtildeE.neg.add (FV.num vE).neg
      | .geo => vtildeE.neg.add (FV.num vE)
    let vtilde_i := FV.hypotFV vtildeE vtildeN
    let vtilde_o := FV.hypotFV vtildeE_o vtildeN_o
    let e_out := vtildeE_o.neg.div vtilde_o
    let n_out := vtildeN_o.neg.div vtilde_o
    .ok (piE.mul e_out, piE.mul n_out, (vtilde_i.div vtilde_o).mul tE_in)

/-- Claim C4 (amended): the NaN/Inf validation is partial, not total.
(1) `_check_convert_inputs` (used by `convert_helio_geo_phot`) raises its
`ValueError` exactly when one of the five checked values is NaN — so
infinite values pass validation; (2) `convert_piEvec_tE` performs no
finiteness validation: a NaN parallax component flows through and the
function returns NaN outputs normally; (3) `rotation_xy_to_tu` performs
no validation: a NaN `alpha_deg` yields a NaN matrix, and an infinite
`alpha_deg` surfaces only as the `ValueError` raised by `math.cos`
mid-computation; (4) `rotation_xy_to_ne` does reject non-finite
`mu_rel_E`/`mu_rel_N` and non-finite `alpha_deg` with `RuntimeError`s
before computing. -/
theorem C4_nan_inf_validation :
    (∀ t0_in u0_in tE_in piEE_in piEN_in : FV,
      check_convert_inputs_fp t0_in u0_in tE_in piEE_in piEN_in =
          .error (.valueError "conversion inputs must be finite numbers") ↔
        (t0_in.isnan || u0_in.isnan || tE_in.isnan ||
          piEE_in.isnan || piEN_in.isnan) = true) ∧
    check_convert_inputs_fp FV.inf (FV.num 0) (FV.num 1) (FV.num 1) (FV.num 0) =
      .ok () ∧
    (∀ (y t vE vN : ℝ) (f : Frame),
      convert_piEvec_tE_fp vE vN FV.nan (FV.num y) (FV.num t) f =
        .ok (FV.nan, FV.nan, FV.nan)) ∧
    rotation_xy_to_tu_fp FV.nan (FV.num 1) = .ok (FV.nan, FV.nan, FV.nan, FV.nan) ∧
    (∀ sgn : FV, rotation_xy_to_tu_fp FV.inf sgn =
      .error (.valueError "math domain error")) ∧
    (∀ mu_rel_E mu_rel_N alpha_deg sgn : FV,
      (mu_rel_E.isfinite && mu_rel_N.isfinite) = false →
        rotation_xy_to_ne_checks mu_rel_E mu_rel_N alpha_deg sgn =
          .error (.runtimeError "Relative proper motion components must be finite for rotation diagnostic.")) ∧
    (∀ mu_rel_E mu_rel_N sgn : FV,
      (mu_rel_E.isfinite && mu_rel_N.isfinite) = true →
      (mu_rel_E.eqZero && mu_rel_N.eqZero) = false →
        rotation_xy_to_ne_checks mu_rel_E mu_rel_N FV.inf sgn =
          .error (.runtimeError "alpha_deg must be finite to construct lens-frame rotation.")) := by
  refine ⟨?_, rfl, ?_, rfl, ?_, ?_, ?_⟩
  · intro t0_in u0_in tE_in piEE_in piEN_in
    unfold check_convert_inputs_fp
    by_cases h : (t0_in.isnan || u0_in.isnan || tE_in.isnan ||
        piEE_in.isnan || piEN_in.isnan) = true
    · rw [if_pos h]
      simp [h]
    · rw [if_neg h]
      simp [h]
  · intro y t vE vN f
    cases f <;> rfl
  · intro sgn
    rfl
  · intro mu_rel_E mu_rel_N alpha_deg sgn h
    simp [rotation_xy_to_ne_checks, h]
  · intro mu_rel_E mu_rel_N sgn h1 h2
    unfold rotation_xy_to_ne_checks
    rw [h1, h2]
    rfl

/-- Counterexample to C4 as stated: `convert_piEvec_tE` raises no
validation error on a NaN input — with `piEE_in = NaN` it returns
normally, producing NaN outputs. -/
theorem C4_counterexample :
    convert_piEvec_tE_fp 0 0 FV.nan (FV.num 1) (FV.num 1) Frame.helio =
      .ok (FV.nan, FV.nan, FV.nan) := rfl

end MicrolensUtils
